import Mathlib

/-!
Verification development for the "retain" persistent-assistant engine.

The TypeScript sources are shallowly embedded as executable Lean
definitions: pure string processing is translated character-for-character
(JS strings become `List Char` under the hood), the SQLite-backed store
becomes explicit state passing over a `Db` record, asynchronous calls that
can reject become `Except Unit` values, and ambient process state (current
session id, wall-clock timestamps, the file system, the completion and
vector services) becomes explicit parameters.

The module `src/lib/db.ts` itself is absent from the repository snapshot
(only its test suite and the design plan reference it), so the store
operations are modelled from the specification; each such definition is
marked `Modelled from the spec:` in its doc comment.  All other
definitions are translated from the TypeScript sources.
-/

namespace Retain

/-! ## Character and string utilities

JS string primitives (`trim`, `trimStart`, `slice`, `split`, `indexOf`,
`startsWith`) are modelled on `List Char`.  JS `trim` removes Unicode
whitespace; we use `Char.isWhitespace` uniformly for the whitespace class,
which covers the ASCII whitespace appearing in this code base. -/

/-- Whitespace class used by the JS `trim` / `\s` operations in this model. -/
def isWs (c : Char) : Bool := c.isWhitespace

/-- JS `String.prototype.trimStart`. -/
def trimStartL (l : List Char) : List Char := l.dropWhile isWs

/-- JS `String.prototype.trimEnd`. -/
def trimEndL (l : List Char) : List Char := (l.reverse.dropWhile isWs).reverse

/-- JS `String.prototype.trim` (both ends). -/
def trimL (l : List Char) : List Char := trimEndL (trimStartL l)

/-- JS `trim` lifted to `String`. -/
def strTrim (s : String) : String := ⟨trimL s.data⟩

/-- JS `slice(0, n)` lifted to `String` (character based). -/
def strTake (n : Nat) (s : String) : String := ⟨s.data.take n⟩

/-- JS `split(sep)` for a one-character separator (e.g. `split("\n")`).
`splitCharL sep l` always returns a non-empty list of separator-free
pieces; `[] ↦ [[]]` matches JS `"".split(sep) = [""]`. -/
def splitCharL (sep : Char) : List Char → List (List Char)
  | [] => [[]]
  | c :: rest =>
    let r := splitCharL sep rest
    if c = sep then [] :: r
    else
      match r with
      | h :: t => (c :: h) :: t
      | [] => [[c]]

/-- Accumulator loop of `wordsL`: `acc` holds the reversed characters of
the word currently being read. -/
def wordsAux : List Char → List Char → List (List Char)
  | [], acc => if acc = [] then [] else [acc.reverse]
  | c :: rest, acc =>
    if isWs c then (if acc = [] then [] else [acc.reverse]) ++ wordsAux rest []
    else wordsAux rest (c :: acc)

/-- JS `split(/\s+/)` on an already-trimmed string: the whitespace-separated
words, in order, with no empty pieces. -/
def wordsL (l : List Char) : List (List Char) := wordsAux l []

/-- JS `indexOf(pat)`: index of the first occurrence of `pat` as a
contiguous substring, `none` when absent. -/
def indexOfSubstrL (pat : List Char) : List Char → Option Nat
  | [] => if pat.isPrefixOf [] then some 0 else none
  | c :: rest =>
    if pat.isPrefixOf (c :: rest) then some 0
    else (indexOfSubstrL pat rest).map (· + 1)

/-! ## Data model

Row types mirror the SQLite schema from the design plan and the
specification: sessions, messages, memories. -/

/-- A row of the `sessions` table.  `tags` holds the raw serialized tag
list; JSON encoding of tags is not modelled because no embedded operation
inspects it. -/
structure SessionRow where
  id : String
  title : Option String
  summary : Option String
  created_at : String
  updated_at : String
  tags : String
deriving DecidableEq

/-- A row of the `messages` table. -/
structure MessageRow where
  id : Nat
  session_id : String
  role : String
  content : String
  timestamp : String
  token_count : Option Nat
deriving DecidableEq

/-- A row of the `memories` table.  A memory with `superseded_by ≠ none`
is inactive. -/
structure MemoryRow where
  id : Nat
  fact : String
  category : String
  source_session : Option String
  created_at : String
  superseded_by : Option Nat
deriving DecidableEq

/-- The structured store: the three tables plus the auto-increment
counters for the two integer-keyed tables.  Rows are kept in insertion
order. -/
structure Db where
  sessions : List SessionRow
  messages : List MessageRow
  memories : List MemoryRow
  nextMessageId : Nat
  nextMemoryId : Nat
deriving DecidableEq

/-- The empty store. -/
def Db.empty : Db := ⟨[], [], [], 0, 0⟩

/-- Store-layer error taxonomy from the specification. -/
inductive DbErr where
  | duplicateKey
  | notFound
  | foreignKeyViolation
  | invalidArgument
deriving DecidableEq

/-! ## Structured store operations (spec-modelled)

`src/lib/db.ts` is missing from the snapshot; these operations are
modelled from the specification (section 4.1) and constrained by the db
test suite. -/

/-- Modelled from the spec: `createSession(id, title, createdAt)` inserts a
new session with `updated_at = created_at`; fails with `DuplicateKey` if
the id exists.  (`db.ts` is absent from the snapshot.) -/
def dbCreateSession (id title createdAt : String) (db : Db) : Except DbErr Db :=
  if db.sessions.any (fun s => s.id = id) then .error .duplicateKey
  else .ok { db with
    sessions := db.sessions ++
      [{ id := id, title := some title, summary := none,
         created_at := createdAt, updated_at := createdAt, tags := "[]" }] }

/-- Modelled from the spec: lookup of a session row by id (used by
`session.ts`); `none` when absent.  (`db.ts` is absent from the snapshot.) -/
def dbGetSession (id : String) (db : Db) : Option SessionRow :=
  db.sessions.find? (fun s => s.id = id)

/-- Field set for `dbUpdateSession`; `none` means "field not supplied". -/
structure SessionUpdate where
  title : Option String := none
  summary : Option String := none
  tags : Option String := none
  updatedAt : Option String := none

/-- Modelled from the spec: `updateSession` is a partial update — a no-op
when no fields are supplied, and unspecified fields retain their prior
values.  (`db.ts` is absent from the snapshot.) -/
def dbUpdateSession (id : String) (u : SessionUpdate) (db : Db) : Db :=
  { db with
    sessions := db.sessions.map (fun s =>
      if s.id = id then
        { s with
          title := match u.title with | some t => some t | none => s.title,
          summary := match u.summary with | some t => some t | none => s.summary,
          tags := match u.tags with | some t => t | none => s.tags,
          updated_at := match u.updatedAt with | some t => t | none => s.updated_at }
      else s) }

/-- Modelled from the spec: `listSessions(limit)` returns sessions ordered
by `created_at` descending, capped at `limit`.  (`db.ts` is absent from
the snapshot.) -/
def dbListSessions (limit : Nat) (db : Db) : List SessionRow :=
  (db.sessions.mergeSort (fun a b => b.created_at ≤ a.created_at)).take limit

/-- Modelled from the spec: `insertMessage` fails with
`ForeignKeyViolation` if the session does not exist and with
`InvalidArgument` for a role outside user/assistant/system; otherwise it
appends the row and returns the new row id.  (`db.ts` is absent from the
snapshot.) -/
def dbInsertMessage (sessionId role content timestamp : String)
    (tokenCount : Option Nat) (db : Db) : Except DbErr (Nat × Db) :=
  if ¬ db.sessions.any (fun s => s.id = sessionId) then .error .foreignKeyViolation
  else if ¬ (role = "user" ∨ role = "assistant" ∨ role = "system") then
    .error .invalidArgument
  else
    .ok (db.nextMessageId, { db with
      messages := db.messages ++
        [{ id := db.nextMessageId, session_id := sessionId, role := role,
           content := content, timestamp := timestamp, token_count := tokenCount }],
      nextMessageId := db.nextMessageId + 1 })

/-- Modelled from the spec: `getMessages` returns all messages of a
session in insertion order; empty when none.  (`db.ts` is absent from the
snapshot.) -/
def dbGetMessages (sessionId : String) (db : Db) : List MessageRow :=
  db.messages.filter (fun m => m.session_id = sessionId)

/-- Modelled from the spec: `insertMemory` appends a new active memory and
returns its id.  (`db.ts` is absent from the snapshot.) -/
def dbInsertMemory (fact category : String) (sourceSessionId : Option String)
    (createdAt : String) (db : Db) : Nat × Db :=
  (db.nextMemoryId, { db with
    memories := db.memories ++
      [{ id := db.nextMemoryId, fact := fact, category := category,
         source_session := sourceSessionId, created_at := createdAt,
         superseded_by := none }],
    nextMemoryId := db.nextMemoryId + 1 })

/-- Modelled from the spec: `getActiveMemories` returns all memories whose
supersession pointer is null, ordered by `created_at` ascending.
(`db.ts` is absent from the snapshot.) -/
def dbGetActiveMemories (db : Db) : List MemoryRow :=
  (db.memories.filter (fun m => m.superseded_by = none)).mergeSort
    (fun a b => a.created_at ≤ b.created_at)

/-- Modelled from the spec: `findMemoryByFact` is an exact, case-sensitive,
untrimmed-equal match among active memories only.  (`db.ts` is absent
from the snapshot.) -/
def dbFindMemoryByFact (exactText : String) (db : Db) : Option MemoryRow :=
  (db.memories.filter (fun m => m.superseded_by = none)).find?
    (fun m => m.fact = exactText)

/-- Modelled from the spec: `supersedeMemory(oldId, newId)` sets
`superseded_by` on the old row; idempotent for repeated identical calls;
fails with `NotFound` if either id is absent.  (`db.ts` is absent from
the snapshot.) -/
def dbSupersedeMemory (oldId newId : Nat) (db : Db) : Except DbErr Db :=
  if db.memories.any (fun m => m.id = oldId) ∧ db.memories.any (fun m => m.id = newId) then
    .ok { db with
      memories := db.memories.map (fun m =>
        if m.id = oldId then { m with superseded_by := some newId } else m) }
  else .error .notFound

/-- A full-text search hit: the matched text, a source tag
(`"message"` or `"memory"`), and for messages the owning session id and
title. -/
structure SearchResult where
  content : String
  source : String
  sessionId : Option String
  sessionTitle : Option String
deriving DecidableEq

/-- Modelled from the spec: the full-text match predicate — the query
occurs in the content.  (FTS5 tokenization and bm25 ranking are external
to the model; the claims about search concern membership only.) -/
def ftsMatch (query text : String) : Bool :=
  decide (query.data <:+: text.data)

/-- Memory rows selected by `searchMemories` before rendering/capping:
active rows whose fact matches the query. -/
def searchMemRows (query : String) (db : Db) : List MemoryRow :=
  db.memories.filter (fun m => m.superseded_by = none ∧ ftsMatch query m.fact)

/-- Modelled from the spec: `searchMemories(query, limit)` — full-text
search over memory facts, superseded memories excluded, capped at
`limit`.  (`db.ts` is absent from the snapshot.) -/
def dbSearchMemories (query : String) (limit : Nat) (db : Db) : List SearchResult :=
  ((searchMemRows query db).map (fun m =>
    { content := m.fact, source := "memory", sessionId := m.source_session,
      sessionTitle := none })).take limit

/-- Message rows selected by `searchMessages` before rendering/capping. -/
def searchMsgRows (query : String) (db : Db) : List MessageRow :=
  db.messages.filter (fun m => ftsMatch query m.content)

/-- Modelled from the spec: `searchMessages(query, limit)` — full-text
search over message content, results carry the owning session id and
title.  (`db.ts` is absent from the snapshot.) -/
def dbSearchMessages (query : String) (limit : Nat) (db : Db) : List SearchResult :=
  ((searchMsgRows query db).map (fun m =>
    { content := m.content, source := "message", sessionId := some m.session_id,
      sessionTitle := (dbGetSession m.session_id db).bind (fun s => s.title) })).take limit

/-- Modelled from the spec: `search(query, limit)` — merged full-text
search over messages and memories.  (`db.ts` is absent from the
snapshot.) -/
def dbSearch (query : String) (limit : Nat) (db : Db) : List SearchResult :=
  (dbSearchMessages query limit db ++ dbSearchMemories query limit db).take limit

/-! ## Memory extraction (`src/lib/memory.ts`)

`extractAndSaveMemories` scans an assistant response for `[MEMORY]`
markers and persists the candidate facts.  The scan of the response text
never consults the store, so the interleaved source loop is factored into
a pure scanner (`extractCandidates`) followed by a fold that saves each
candidate (`saveFacts`); the two compositions are extensionally the same
state transformer as the source loop. -/

/-- The fact marker token `"[MEMORY]"`. -/
def memMarkL : List Char := ['[', 'M', 'E', 'M', 'O', 'R', 'Y', ']']

/-- The bullet item marker `"- "`. -/
def bulletMarkL : List Char := ['-', ' ']

/-- Terminal punctuation class `[.!?]` of the sentence-boundary regex. -/
def isPunc (c : Char) : Bool := c = '.' || c = '!' || c = '?'

/-- JS `\w` word-character class `[A-Za-z0-9_]`. -/
def isWordChar (c : Char) : Bool := c.isAlphanum || c = '_'

/-- Case-insensitive literal match: strips `pat` (compared via
`Char.toLower`) from the front of `l`, or fails. -/
def stripCI : List Char → List Char → Option (List Char)
  | [], l => some l
  | _, [] => none
  | p :: ps, c :: cs => if c.toLower = p.toLower then stripCI ps cs else none

/-- One alternative of the anchored regex
`^(added|updated) to \w+:\s*` (case-insensitive): keyword, literal
`" to "`, one or more word characters, `":"`, then any whitespace. -/
def stripKw (kw : List Char) (l : List Char) : Option (List Char) := do
  let r1 ← stripCI kw l
  let r2 ← stripCI " to ".data r1
  let ws := r2.takeWhile isWordChar
  let r3 := r2.dropWhile isWordChar
  if ws = [] then none
  else
    match r3 with
    | ':' :: r4 => some (r4.dropWhile isWs)
    | _ => none

/-- JS `cleaned.replace(/^(added|updated) to \w+:\s*/i, "")`.  The two
alternatives start with distinct letters, so trying them in order needs
no backtracking. -/
def stripAddedPfxL (l : List Char) : List Char :=
  match stripKw "added".data l with
  | some r => r
  | none =>
    match stripKw "updated".data l with
    | some r => r
    | none => l

/-- Match of `[.!?]\s+[A-Z]` anchored at the current position: a
terminal-punctuation character followed by at least one whitespace
character and then an upper-case letter.  Because every character of a
`\s+` run other than the last is followed by more whitespace, the regex
with backtracking matches here iff the first non-whitespace character
after the run is upper case. -/
def sentMatchAt (c : Char) (rest : List Char) : Bool :=
  isPunc c &&
    (match rest with
     | [] => false
     | d :: _ =>
       isWs d &&
         (match rest.dropWhile isWs with
          | [] => false
          | e :: _ => e.isUpper))

/-- JS `cleaned.search(/[.!?]\s+[A-Z]/)`: index of the first
sentence-boundary match, `none` when absent. -/
def findSentenceEndL : List Char → Option Nat
  | [] => none
  | c :: rest =>
    if sentMatchAt c rest then some 0
    else (findSentenceEndL rest).map (· + 1)

/-- JS `replace(/[.!?]+$/, "")`: drop the trailing run of terminal
punctuation. -/
def dropTrailingPuncL (l : List Char) : List Char :=
  (l.reverse.dropWhile isPunc).reverse

/-- The inner bullet loop of `extractAndSaveMemories`: starting on the
line after a marker, collect `"- "`-prefixed lines (each bullet is the
trimmed text after the marker), consume one terminating blank line, and
stop at the first other line.  Returns the bullets and the number of
lines consumed (the source advances its index `i` to `j`). -/
def collectBulletsL : List (List Char) → List (List Char) × Nat
  | [] => ([], 0)
  | line :: rest =>
    let next := trimL line
    if bulletMarkL.isPrefixOf next then
      let pr := collectBulletsL rest
      (trimL (next.drop 2) :: pr.1, pr.2 + 1)
    else if next = [] then ([], 1)
    else ([], 0)

/-- The candidate fact of the inline (no-bullet) branch: strip the
`added/updated to <word>:` prefix, then keep the first sentence inclusive
of its terminator if a sentence boundary exists, otherwise strip trailing
punctuation and trim. -/
def inlineFactL (inline : List Char) : List Char :=
  let cleaned := stripAddedPfxL inline
  match findSentenceEndL cleaned with
  | some i => cleaned.take (i + 1)
  | none => trimL (dropTrailingPuncL cleaned)

/-- The outer line scan of `extractAndSaveMemories`, written with
structural fuel so that it computes by iota reduction: find a `[MEMORY]`
marker on a line (leading indentation ignored), take the following bullet
list if present, otherwise the parsed inline remainder (dropped when
empty), and continue after the consumed lines.  One unit of fuel is spent
per marker line while the lines consumed by the bullet loop are dropped
as well, so `fuel = ls.length` (as supplied by `extractScanL`) never runs
out: the `0` base case is reached only with an empty line list. -/
def extractScanFuel : Nat → List (List Char) → List (List Char)
  | 0, _ => []
  | _ + 1, [] => []
  | fuel + 1, line :: rest =>
    let t := trimStartL line
    match indexOfSubstrL memMarkL t with
    | none => extractScanFuel fuel rest
    | some idx =>
      let inline := trimL (t.drop (idx + memMarkL.length))
      let pr := collectBulletsL rest
      let rem := rest.drop pr.2
      if pr.1 ≠ [] then pr.1 ++ extractScanFuel fuel rem
      else
        let fact := inlineFactL inline
        (if fact = [] then [] else [fact]) ++ extractScanFuel fuel rem

/-- The outer line scan at its natural fuel. -/
def extractScanL (ls : List (List Char)) : List (List Char) :=
  extractScanFuel ls.length ls

/-- All candidate facts extracted from a response text, in order. -/
def extractCandidates (responseText : String) : List String :=
  (extractScanL (splitCharL '\n' responseText.data)).map (fun l => (⟨l⟩ : String))

/-- Embedding of `saveFact` from `src/lib/memory.ts`: exact-duplicate
suppression against active memories, then insertion attributed to the
current session.  Returns `none` when the fact already exists (the source
returns `false`), otherwise the updated store.  The fire-and-forget
vector upsert has no observable effect on the store and is omitted. -/
def saveFact (fact : String) (sessionId : Option String) (now : String)
    (db : Db) : Option Db :=
  match dbFindMemoryByFact fact db with
  | some _ => none
  | none => some (dbInsertMemory fact "general" sessionId now db).2

/-- The per-candidate save loop of `extractAndSaveMemories`: candidates
for which `saveFact` succeeded are collected in order. -/
def saveFacts (sessionId : Option String) (now : String) :
    List String → Db → List String × Db
  | [], db => ([], db)
  | c :: cs, db =>
    match saveFact c sessionId now db with
    | none => saveFacts sessionId now cs db
    | some db1 =>
      let pr := saveFacts sessionId now cs db1
      (c :: pr.1, pr.2)

/-- Embedding of `extractAndSaveMemories` from `src/lib/memory.ts`: the
pure scan followed by the save loop.  The ambient current session id and
wall-clock timestamp are explicit parameters; the `MEMORY.md` rewrite is
a file side effect whose content is `renderMemoryMarkdown` below. -/
def extractAndSaveMemories (responseText : String) (sessionId : Option String)
    (now : String) (db : Db) : List String × Db :=
  saveFacts sessionId now (extractCandidates responseText) db

/-- Join parts with newlines (JS `lines.join("\n")`). -/
def joinNl (parts : List String) : String := String.intercalate "\n" parts

/-- Content written by `syncMemoryMarkdown`: the full active-memory set
rendered as a flat markdown list. -/
def renderMemoryMarkdown (db : Db) : String :=
  joinNl (["# MEMORY.md - Persistent Memories", "", "## General Facts", ""]
    ++ (dbGetActiveMemories db).map (fun m => "- " ++ m.fact) ++ [""])

/-! ## Sessions (`src/lib/session.ts` and `src/types.ts`) -/

/-- Message role from `src/types.ts`. -/
inductive Role where
  | user
  | assistant
deriving DecidableEq

/-- Wire string of a role. -/
def Role.toStr : Role → String
  | .user => "user"
  | .assistant => "assistant"

/-- In-memory message from `src/types.ts`. -/
structure Message where
  role : Role
  content : String
  timestamp : String
deriving DecidableEq

/-- The module-level mutable session state of `session.ts`
(`currentSessionId`, `currentMessages`), made explicit. -/
structure SessState where
  currentSessionId : String
  currentMessages : List Message
deriving DecidableEq

/-- Embedding of `initSession`: create a fresh session titled
`"New session"` and reset the in-memory buffer.  The generated id and
timestamp are parameters; the JSONL mirror write is a file side effect
outside the model, and the `DuplicateKey` branch is unreachable for a
fresh id (modelled as a no-op). -/
def initSession (id now : String) (db : Db) : SessState × Db :=
  let db1 :=
    match dbCreateSession id "New session" now db with
    | .ok d => d
    | .error _ => db
  (⟨id, []⟩, db1)

/-- Embedding of `appendMessage` from `src/lib/session.ts`: no-op when
the current session row is missing; otherwise push the message, insert
the row, and either auto-title (first user message while the title is
still `"New session"`) or bump only `updated_at`.  The JSONL mirror
writes are file side effects outside the model; the insert error
branches are unreachable here (the session exists and the role type is
valid) and are modelled as keeping the store unchanged. -/
def appendMessage (msg : Message) (now : String) (st : SessState) (db : Db) :
    SessState × Db :=
  match dbGetSession st.currentSessionId db with
  | none => (st, db)
  | some session =>
    let wasUntitled := session.title = some "New session"
    let st1 : SessState := ⟨st.currentSessionId, st.currentMessages ++ [msg]⟩
    let db1 :=
      match dbInsertMessage st.currentSessionId msg.role.toStr msg.content
          msg.timestamp none db with
      | .ok r => r.2
      | .error _ => db
    if wasUntitled ∧ msg.role = .user then
      (st1, dbUpdateSession st.currentSessionId
        ⟨some (strTake 60 msg.content), none, none, some now⟩ db1)
    else
      (st1, dbUpdateSession st.currentSessionId ⟨none, none, none, some now⟩ db1)

/-- Fold of `appendMessage` over a message sequence, each message paired
with its wall-clock timestamp. -/
def appendAll (msgs : List (Message × String)) (st : SessState) (db : Db) :
    SessState × Db :=
  msgs.foldl (fun acc m => appendMessage m.1 m.2 acc.1 acc.2) (st, db)

/-- Title of a session row as observed through `dbGetSession`. -/
def sessionTitle (id : String) (db : Db) : Option (Option String) :=
  (dbGetSession id db).map (fun s => s.title)

/-! ## Semantic index client (`src/lib/vector.ts`)

The Upstash index is an external collaborator: it is modelled as a
function from queries to either a rejection (`Except.error`) or a result
list.  `enabled` models `isVectorEnabled()` / a non-null `getIndex()`
(both driven by the same two environment variables).  Similarity scores
are floating-point numbers the code never computes with — they are
carried opaquely as rationals. -/

/-- Metadata stored with each vector. -/
structure VectorMeta where
  type : String
  sessionId : Option String := none
  sessionTitle : Option String := none
  fact : Option String := none
  category : Option String := none
  date : Option String := none
deriving DecidableEq

/-- A raw hit as returned by the external index (the source asserts
`r.metadata!` under `includeMetadata: true`; metadata is total here). -/
structure RawVectorResult where
  id : String
  score : Rat
  metadata : VectorMeta
deriving DecidableEq

/-- A converted search result (`VectorSearchResult` in the source). -/
structure VectorSearchResult where
  id : String
  score : Rat
  metadata : VectorMeta
deriving DecidableEq

/-- A query sent to the external index.  The source renders the metadata
filter as the string `type = <quoted type>`; the filter is carried
structurally here since only the service interprets it. -/
structure VectorQuery where
  data : String
  topK : Nat
  typeFilter : Option String
deriving DecidableEq

/-- Embedding of `queryRelevantContext` from `src/lib/vector.ts`: with no
configured index it returns the empty list without consulting the
service; otherwise it forwards the query and converts the hits.  Note the
source has no try/catch here — a rejected service call propagates
(`Except.error`) to the caller. -/
def queryRelevantContext (enabled : Bool)
    (svc : VectorQuery → Except Unit (List RawVectorResult))
    (query : String) (topK : Nat) (typeFilter : Option String) :
    Except Unit (List VectorSearchResult) :=
  if ¬ enabled then .ok []
  else (svc ⟨query, topK, typeFilter⟩).map (fun rs =>
    rs.map (fun r => ⟨r.id, r.score, r.metadata⟩))

/-- Embedding of `queryRelevantMemories`. -/
def queryRelevantMemories (enabled : Bool)
    (svc : VectorQuery → Except Unit (List RawVectorResult))
    (query : String) (topK : Nat) : Except Unit (List VectorSearchResult) :=
  queryRelevantContext enabled svc query topK (some "memory")

/-- Embedding of `queryRelevantSessions`. -/
def queryRelevantSessions (enabled : Bool)
    (svc : VectorQuery → Except Unit (List RawVectorResult))
    (query : String) (topK : Nat) : Except Unit (List VectorSearchResult) :=
  queryRelevantContext enabled svc query topK (some "session")

/-! ## Context assembly (`src/lib/context.ts`, post-SQLite version)

File reads (`SYSTEM.md`, `USER.md`, the skills directory) are ambient
inputs collected in `PromptEnv`; a missing file reads as `""` exactly as
the source's `readFile` helper returns. -/

/-- An installed skill as parsed from `SKILL.md`. -/
structure SkillInfo where
  name : String
  description : String
  content : String
deriving DecidableEq

/-- The file-system inputs of prompt assembly. -/
structure PromptEnv where
  systemMd : String
  contextDirExists : Bool
  userMd : String
  skills : List SkillInfo
deriving DecidableEq

/-- In-memory session shape from `src/types.ts` (`tags` carries the raw
serialized list; JSON decoding is not modelled because nothing rendered
depends on it). -/
structure Session where
  id : String
  created_at : String
  updated_at : String
  title : String
  tags : String
  messages : List Message
deriving DecidableEq

/-- Row-to-message conversion used by `getRecentSessions` /
`rowToSession`: the source casts the stored role string, and every
rendering only distinguishes `"user"` from everything else. -/
def rowToMsg (m : MessageRow) : Message :=
  ⟨if m.role = "user" then .user else .assistant, m.content, m.timestamp⟩

/-- Embedding of `getRecentSessions` from the context module. -/
def getRecentSessions (n : Nat) (db : Db) : List Session :=
  (dbListSessions n db).map (fun row =>
    { id := row.id, created_at := row.created_at, updated_at := row.updated_at,
      title := row.title.getD "Untitled", tags := row.tags,
      messages := (dbGetMessages row.id db).map rowToMsg })

/-- JS `content.slice(0, 200)` plus ellipsis when longer. -/
def excerpt200 (content : String) : String :=
  strTake 200 content ++ (if 200 < content.data.length then "…" else "")

/-- Embedding of `summarizeSession`. -/
def summarizeSession (s : Session) : String :=
  joinNl (("## Past session: \"" ++ s.title ++ "\"") ::
    s.messages.map (fun m =>
      (if m.role = .user then "User" else "Assistant") ++ ": "
        ++ excerpt200 m.content))

/-- Embedding of `loadSkillsCatalog` (the literal instruction sentence is
abbreviated; no claim depends on its wording). -/
def loadSkillsCatalog (skills : List SkillInfo) : String :=
  if skills = [] then ""
  else joinNl (["# Available Skills", "",
    "Use the read_skill tool to load full skill instructions when relevant.",
    ""] ++ skills.map (fun s => "- **" ++ s.name ++ "**: " ++ s.description))

/-- The three leading sections (base instructions, user profile, skills
catalog) pushed identically at the head of both `buildSystemPrompt` and
`buildAugmentedPrompt`; shared here. -/
def leadParts (env : PromptEnv) : List String :=
  (if env.systemMd ≠ "" then [env.systemMd] else []) ++
  (if env.contextDirExists ∧ env.userMd ≠ "" then [env.userMd] else []) ++
  (if loadSkillsCatalog env.skills ≠ "" then [loadSkillsCatalog env.skills] else [])

/-- The `# Active Memories` section (empty list of parts when there are
no active memories). -/
def activeMemoriesBlock (db : Db) : List String :=
  let mems := dbGetActiveMemories db
  if mems = [] then []
  else [joinNl (["# Active Memories", ""] ++ mems.map (fun m => "- " ++ m.fact))]

/-- JS `parts.join("\n\n---\n\n")`. -/
def joinSections (parts : List String) : String :=
  String.intercalate "\n\n---\n\n" parts

/-- Embedding of `buildSystemPrompt` (baseline assembly). -/
def buildSystemPrompt (env : PromptEnv) (db : Db) (nRecentSessions : Nat) : String :=
  joinSections (leadParts env ++ activeMemoriesBlock db
    ++ (getRecentSessions nRecentSessions db).map summarizeSession)

/-- The `# Relevant Memories` section built from vector hits; a hit
contributes only when its `fact` metadata is truthy (present and
non-empty). -/
def relevantMemoriesBlock (rs : List VectorSearchResult) : List String :=
  if rs = [] then []
  else
    [joinNl (["# Relevant Memories", ""] ++ rs.filterMap (fun r =>
      match r.metadata.fact with
      | some f => if f = "" then none else some ("- " ++ f)
      | none => none))]

/-- JS template rendering of a nullable string (`null` prints as
`"null"`). -/
def jsOptText (o : Option String) : String := o.getD "null"

/-- JS `content.slice(0, 150)` plus ellipsis when longer. -/
def excerpt150 (content : String) : String :=
  strTake 150 content ++ (if 150 < content.data.length then "…" else "")

/-- Lines contributed by one vector session hit: skipped for a falsy
session id or a missing row, otherwise a header plus up to six live
message excerpts and a blank line. -/
def sessionResultLines (db : Db) (r : VectorSearchResult) : List String :=
  match r.metadata.sessionId with
  | none => []
  | some sid =>
    if sid = "" then []
    else
      match dbGetSession sid db with
      | none => []
      | some session =>
        let msgs := dbGetMessages sid db
        let excerpts := (msgs.take 6).map (fun m =>
          "  " ++ (if m.role = "user" then "User" else "Assistant") ++ ": "
            ++ excerpt150 m.content)
        (("## \"" ++ jsOptText session.title ++ "\" ("
            ++ r.metadata.date.getD "" ++ ")") :: excerpts) ++ [""]

/-- The `# Relevant Past Conversations` section built from vector hits. -/
def relevantSessionsBlock (rs : List VectorSearchResult) (db : Db) : List String :=
  if rs = [] then []
  else [joinNl (["# Relevant Past Conversations", ""]
    ++ rs.flatMap (sessionResultLines db))]

/-- Embedding of `buildAugmentedPrompt`: baseline prompt when the vector
index is disabled; otherwise the lead sections, then the memory section
(vector hits, or on rejection the full active-memory list), then the
history section (vector hits rendered from live store data, or on
rejection the recency-ordered sessions).  The two awaited queries are
each wrapped in their own try/catch in the source; each `match` on an
`Except` here is one of those catches. -/
def buildAugmentedPrompt (env : PromptEnv) (db : Db) (enabled : Bool)
    (svc : VectorQuery → Except Unit (List RawVectorResult))
    (userMessage : String) (nFallbackSessions : Nat) : String :=
  if ¬ enabled then buildSystemPrompt env db nFallbackSessions
  else
    let parts := leadParts env
    let parts := parts ++
      (match queryRelevantMemories enabled svc userMessage 10 with
       | .ok rs => relevantMemoriesBlock rs
       | .error _ => activeMemoriesBlock db)
    let parts := parts ++
      (match queryRelevantSessions enabled svc userMessage 5 with
       | .ok rs => relevantSessionsBlock rs db
       | .error _ => (getRecentSessions nFallbackSessions db).map summarizeSession)
    joinSections parts

/-- The memory section of augmented assembly as a standalone function of
the memory-query outcome (used to state independence of the two
fallbacks). -/
def memorySection (db : Db) (q : Except Unit (List VectorSearchResult)) :
    List String :=
  match q with
  | .ok rs => relevantMemoriesBlock rs
  | .error _ => activeMemoriesBlock db

/-- The history section of augmented assembly as a standalone function of
the session-query outcome. -/
def historySection (db : Db) (nFallback : Nat)
    (q : Except Unit (List VectorSearchResult)) : List String :=
  match q with
  | .ok rs => relevantSessionsBlock rs db
  | .error _ => (getRecentSessions nFallback db).map summarizeSession

/-! ## Agent loop (`src/lib/anthropic.ts`)

The completion service is an oracle from the accumulated message history
to a response (streamed text aggregate plus tool-use blocks).  The
`onToken` / `onToolUse` callbacks are UI side effects with no bearing on
the returned value and are omitted; `executeTool` depends on the ambient
file system and is the `exec` parameter. -/

/-- A tool-use block of a completion response (inputs carried as opaque
key/value pairs). -/
structure ToolUseBlock where
  id : String
  name : String
  input : List (String × String)
deriving DecidableEq

/-- A completion-service response: aggregated streamed text plus the
tool-use blocks of the final message. -/
structure ModelResponse where
  text : String
  tools : List ToolUseBlock
deriving DecidableEq

/-- One entry of the `apiMessages` array sent to the completion
service. -/
inductive ApiMsg where
  | plain (role : Role) (content : String)
  | assistantTurn (text : String) (tools : List ToolUseBlock)
  | toolResults (results : List (String × String))
deriving DecidableEq

/-- The fixed round budget `MAX_TOOL_ROUNDS` of the agent loop. -/
def MAX_TOOL_ROUNDS : Nat := 10

/-- The `while (rounds < MAX_TOOL_ROUNDS)` loop of `chatWithTools`,
with `fuel` counting the remaining rounds.  When the budget is exhausted
the loop falls through with `finalText` still holding its initial value
`""` — the source assigns `finalText` only in the tool-free branch. -/
def chatWithToolsGo (respond : List ApiMsg → ModelResponse)
    (exec : String → List (String × String) → String) :
    Nat → List ApiMsg → String
  | 0, _ => ""
  | fuel + 1, msgs =>
    let resp := respond msgs
    if resp.tools.isEmpty then resp.text
    else
      chatWithToolsGo respond exec fuel
        (msgs ++ [ApiMsg.assistantTurn resp.text resp.tools,
          ApiMsg.toolResults (resp.tools.map (fun t => (t.id, exec t.name t.input)))])

/-- Embedding of `chatWithTools` from `src/lib/anthropic.ts`. -/
def chatWithTools (respond : List ApiMsg → ModelResponse)
    (exec : String → List (String × String) → String)
    (messages : List Message) : String :=
  chatWithToolsGo respond exec MAX_TOOL_ROUNDS
    (messages.map (fun m => ApiMsg.plain m.role m.content))

/-! ## Sandboxed command execution (`src/lib/tools.ts`)

Paths are modelled as lists of slash-free segments of an absolute
normalized path; `path.resolve` becomes segment normalization.  The file
system (`existsSync`) and `execFileSync` are ambient parameters.  The
working directory passed to the child process is not modelled. -/

/-- One step of Node path normalization: empty and `"."` segments
vanish, `".."` pops the previous segment (staying at the root when there
is none), anything else is kept. -/
def normStep (acc : List (List Char)) (seg : List Char) : List (List Char) :=
  if seg = [] ∨ seg = ['.'] then acc
  else if seg = ['.', '.'] then acc.dropLast
  else acc ++ [seg]

/-- Node path normalization over segments. -/
def normalizeSegs (segs : List (List Char)) : List (List Char) :=
  segs.foldl normStep []

/-- Node `path.resolve(base, name)` with `base` an absolute normalized
path: an absolute `name` ignores `base`. -/
def resolvePath (base : List (List Char)) (name : List Char) : List (List Char) :=
  match name with
  | '/' :: _ => normalizeSegs (splitCharL '/' name)
  | _ => normalizeSegs (base ++ splitCharL '/' name)

/-- Textual form of an absolute path from its segments
(`"/" ++ seg ++ "/" ++ seg ++ ...`). -/
def pathL (segs : List (List Char)) : List Char :=
  segs.flatMap (fun seg => '/' :: seg)

/-- Options the source passes to `execFileSync`. -/
structure ExecOpts where
  timeoutMs : Nat
  maxBuffer : Nat
deriving DecidableEq

/-- The fixed execution options: 30-second timeout, 1 MiB output
buffer. -/
def runCmdOpts : ExecOpts := ⟨30000, 1048576⟩

/-- Outcome of a child-process run: the combined stdout on success, or
the captured streams and message of the thrown error. -/
inductive ExecOutcome where
  | success (stdout : String)
  | failure (stdout stderr message : String)
deriving DecidableEq

/-- JS `a || b` on strings. -/
def firstNonEmpty (a b : String) : String := if a = "" then b else a

/-- Rendering of a successful run's trimmed combined output: truncated at
20000 characters, `"(no output)"` when empty. -/
def formatRunOutput (output : String) : String :=
  if output.data.length > 20000 then
    strTake 20000 output ++ "\n\n[truncated — output is "
      ++ toString output.data.length ++ " chars]"
  else if output = "" then "(no output)"
  else output

/-- The execute-and-render tail of `executeRunCommand`: the try/catch
around `execFileSync`. -/
def runAndFormat
    (runner : ExecOpts → List (List Char) → List (List Char) → ExecOutcome)
    (scriptPath args : List (List Char)) : String :=
  match runner runCmdOpts scriptPath args with
  | .success out => formatRunOutput (strTrim out)
  | .failure stdout stderr message =>
    "Command failed:\n"
      ++ firstNonEmpty (strTrim stderr) (firstNonEmpty (strTrim stdout) message)

/-- Embedding of `executeRunCommand` from `src/lib/tools.ts`.  `binDir`
is the segment form of the allow-listed `BIN_DIR` (its concrete value
depends on the install location), `scriptExists` models `existsSync`,
`runner` models `execFileSync` together with its catch payload.  The
source's local bindings (`parts`, `scriptName`, `scriptPath`) are
inlined. -/
def executeRunCommand (binDir : List (List Char))
    (scriptExists : List (List Char) → Bool)
    (runner : ExecOpts → List (List Char) → List (List Char) → ExecOutcome)
    (command : String) : String :=
  if (wordsL (trimL command.data)).headD [] = [] then
    "Error: No script name provided."
  else if ¬ ((pathL binDir ++ ['/']).isPrefixOf
      (pathL (resolvePath binDir ((wordsL (trimL command.data)).headD [])))) then
    "Error: Path traversal not allowed. Scripts must reside in workspace/bin/."
  else if ¬ scriptExists (resolvePath binDir ((wordsL (trimL command.data)).headD [])) then
    "Error: Script not found: \""
      ++ (⟨(wordsL (trimL command.data)).headD []⟩ : String)
      ++ "\". Place executable scripts in workspace/bin/."
  else
    runAndFormat runner (resolvePath binDir ((wordsL (trimL command.data)).headD []))
      (wordsL (trimL command.data)).tail

/-! ## Memory-table operation sequences

Used to state the supersession invariant over every subsequent store
operation. -/

/-- A subsequent store operation touching the memory table. -/
inductive MemOp where
  | insert (fact category : String) (src : Option String) (createdAt : String)
  | supersede (oldId newId : Nat)
deriving DecidableEq

/-- Whether an operation supersedes the given memory id. -/
def MemOp.supersedes : MemOp → Nat → Bool
  | .insert _ _ _ _, _ => false
  | .supersede o _, i => o = i

/-- Apply one operation; a failing supersede (NotFound) leaves the store
unchanged. -/
def applyMemOp (db : Db) : MemOp → Db
  | .insert f c s t => (dbInsertMemory f c s t db).2
  | .supersede o n =>
    match dbSupersedeMemory o n db with
    | .ok db1 => db1
    | .error _ => db

/-- Apply a sequence of operations in order. -/
def applyMemOps (db : Db) (ops : List MemOp) : Db := ops.foldl applyMemOp db

/-- Store well-formedness: every memory row id is below the
auto-increment counter (so freshly inserted ids never collide). -/
def memIdsBounded (db : Db) : Prop := ∀ r ∈ db.memories, r.id < db.nextMemoryId

instance (db : Db) : Decidable (memIdsBounded db) :=
  List.decidableBAll (fun r : MemoryRow => r.id < db.nextMemoryId) db.memories

/-! ## Basic lemmas about the string utilities -/

theorem trimEndL_getLast? (l : List Char) (c : Char)
    (h : (trimEndL l).getLast? = some c) : isWs c = false := by
  unfold trimEndL at h
  rw [List.getLast?_reverse] at h
  have := List.head?_dropWhile_not isWs l.reverse
  rw [h] at this
  exact this

theorem trimL_getLast? (l : List Char) (c : Char)
    (h : (trimL l).getLast? = some c) : isWs c = false := trimEndL_getLast? _ c h

theorem trimStartL_head? (l : List Char) (c : Char)
    (h : (trimStartL l).head? = some c) : isWs c = false := by
  have := List.head?_dropWhile_not isWs l
  unfold trimStartL at h
  rw [h] at this
  exact this

theorem trimEndL_prefix (l : List Char) : trimEndL l <+: l := by
  unfold trimEndL
  have h := List.dropWhile_suffix (l := l.reverse) isWs
  have h2 : (List.dropWhile isWs l.reverse).reverse <+: l.reverse.reverse :=
    List.reverse_prefix.mpr h
  simpa using h2

theorem trimL_head? (l : List Char) (c : Char)
    (h : (trimL l).head? = some c) : isWs c = false := by
  unfold trimL at h
  have hpre := trimEndL_prefix (trimStartL l)
  apply trimStartL_head? l c
  rcases hpre with ⟨t, ht⟩
  cases heq : trimEndL (trimStartL l) with
  | nil => rw [heq] at h; exact absurd h (by simp)
  | cons d rest =>
    rw [heq] at h ht
    simp at h
    subst h
    rw [← ht]
    simp

theorem trimStartL_eq_self (l : List Char)
    (h : ∀ c, l.head? = some c → isWs c = false) : trimStartL l = l := by
  unfold trimStartL
  cases l with
  | nil => rfl
  | cons c rest => exact List.dropWhile_cons_of_neg (by simp [h c rfl])

theorem trimEndL_eq_self (l : List Char)
    (h : ∀ c, l.getLast? = some c → isWs c = false) : trimEndL l = l := by
  unfold trimEndL
  cases hr : l.reverse with
  | nil =>
    have : l = [] := by simpa using congrArg List.reverse hr
    simp [this]
  | cons d rest =>
    have hd : l.getLast? = some d := by
      rw [← List.head?_reverse, hr]
      rfl
    rw [List.dropWhile_cons_of_neg (by simp [h d hd])]
    rw [← hr, List.reverse_reverse]

theorem trimL_idem (l : List Char) : trimL (trimL l) = trimL l := by
  have h1 : trimStartL (trimL l) = trimL l :=
    trimStartL_eq_self _ (fun c hc => trimL_head? l c hc)
  show trimEndL (trimStartL (trimL l)) = trimL l
  rw [h1]
  exact trimEndL_eq_self _ (fun c hc => trimL_getLast? l c hc)

theorem trimL_eq_nil_iff (l : List Char) :
    trimL l = [] ↔ ∀ c ∈ l, isWs c = true := by
  unfold trimL trimEndL
  rw [List.reverse_eq_nil_iff, List.dropWhile_eq_nil_iff]
  constructor
  · intro h c hc
    by_cases hw : isWs c = true
    · exact hw
    · exfalso
      rw [← List.takeWhile_append_dropWhile (p := isWs) (l := l)] at hc
      rcases List.mem_append.mp hc with h1 | h1
      · exact hw (List.mem_takeWhile_imp h1)
      · exact hw (h c (List.mem_reverse.mpr h1))
  · intro h c hc
    exact h c ((List.dropWhile_sublist isWs).mem (List.mem_reverse.mp hc))

theorem trimL_ne_nil (l : List Char) (c : Char) (hc : c ∈ l)
    (hw : isWs c = false) : trimL l ≠ [] := by
  intro h
  have := (trimL_eq_nil_iff l).mp h c hc
  rw [hw] at this
  exact Bool.false_ne_true this

theorem punc_not_ws (c : Char) (h : isPunc c = true) : isWs c = false := by
  unfold isPunc at h
  rcases Bool.or_eq_true_iff.mp h with h1 | h1
  · rcases Bool.or_eq_true_iff.mp h1 with h2 | h2
    · rw [decide_eq_true_eq.mp h2]; decide
    · rw [decide_eq_true_eq.mp h2]; decide
  · rw [decide_eq_true_eq.mp h1]; decide

/-! ## Lemmas about the memory-extraction scanner -/

theorem bullet_content_ne_nil (line : List Char)
    (h : bulletMarkL.isPrefixOf (trimL line) = true) :
    trimL ((trimL line).drop 2) ≠ [] := by
  have hpre : bulletMarkL <+: trimL line := List.isPrefixOf_iff_prefix.mp h
  rcases hpre with ⟨u, hu⟩
  have hdrop : (trimL line).drop 2 = u := by rw [← hu]; rfl
  rw [hdrop]
  intro hnil
  have hall : ∀ c ∈ u, isWs c = true := (trimL_eq_nil_iff u).mp hnil
  cases hu2 : u with
  | nil =>
    have hsp : (trimL line).getLast? = some ' ' := by
      rw [← hu, hu2]
      rfl
    have := trimL_getLast? line ' ' hsp
    simp [isWs] at this
  | cons d rest =>
    have hlast : u.getLast? = (trimL line).getLast? := by
      rw [← hu]
      unfold bulletMarkL
      rw [hu2]
      simp [List.getLast?_append]
    have hsome : ∃ e, u.getLast? = some e := by
      rw [hu2]
      simp [List.getLast?_cons]
    rcases hsome with ⟨e, he⟩
    have hmem : e ∈ u := List.mem_of_mem_getLast? he
    have hws : isWs e = true := hall e hmem
    have : isWs e = false := trimL_getLast? line e (by rw [← hlast, he])
    rw [this] at hws
    exact Bool.false_ne_true hws

theorem findSentenceEndL_punc (l : List Char) (i : Nat)
    (h : findSentenceEndL l = some i) : ∃ c, l[i]? = some c ∧ isPunc c = true := by
  induction l generalizing i with
  | nil => simp [findSentenceEndL] at h
  | cons c rest ih =>
    unfold findSentenceEndL at h
    by_cases hm : sentMatchAt c rest = true
    · rw [if_pos hm] at h
      have hi : i = 0 := by simpa using h.symm
      subst hi
      refine ⟨c, by simp, ?_⟩
      unfold sentMatchAt at hm
      exact (Bool.and_eq_true_iff.mp hm).1
    · rw [if_neg hm] at h
      rcases Option.map_eq_some'.mp h with ⟨j, hj, hij⟩
      rcases ih j hj with ⟨d, hd, hp⟩
      subst hij
      exact ⟨d, by simpa using hd, hp⟩

theorem mem_take_of_getElem? (l : List Char) (i : Nat) (c : Char)
    (h : l[i]? = some c) : c ∈ l.take (i + 1) := by
  have hlt : i < l.length := by
    by_contra hge
    rw [List.getElem?_eq_none (by omega)] at h
    exact Option.noConfusion h
  have h2 : (l.take (i + 1))[i]? = some c := by
    rw [List.getElem?_take_of_lt (by omega)]
    exact h
  exact List.getElem?_mem h2

theorem inlineFactL_trim_ne_nil (inline : List Char)
    (h : inlineFactL inline ≠ []) : trimL (inlineFactL inline) ≠ [] := by
  unfold inlineFactL at h ⊢
  dsimp only at h ⊢
  cases hf : findSentenceEndL (stripAddedPfxL inline) with
  | some i =>
    dsimp only
    rcases findSentenceEndL_punc _ i hf with ⟨c, hc, hp⟩
    exact trimL_ne_nil _ c (mem_take_of_getElem? _ i c hc) (punc_not_ws c hp)
  | none =>
    dsimp only
    rw [hf] at h
    rw [trimL_idem]
    exact h

theorem collectBulletsL_mem (ls : List (List Char)) :
    ∀ b ∈ (collectBulletsL ls).1, trimL b ≠ [] := by
  induction ls with
  | nil => intro b hb; simp [collectBulletsL] at hb
  | cons line rest ih =>
    intro b hb
    unfold collectBulletsL at hb
    by_cases h1 : bulletMarkL.isPrefixOf (trimL line) = true
    · rw [if_pos h1] at hb
      simp only [List.mem_cons] at hb
      rcases hb with hb | hb
      · subst hb
        rw [trimL_idem]
        exact bullet_content_ne_nil line h1
      · exact ih b hb
    · rw [if_neg h1] at hb
      by_cases h2 : trimL line = []
      · rw [if_pos h2] at hb
        simp at hb
      · rw [if_neg h2] at hb
        simp at hb

theorem extractScanFuel_trim_ne_nil (fuel : Nat) : ∀ (ls : List (List Char)),
    ∀ c ∈ extractScanFuel fuel ls, trimL c ≠ [] := by
  induction fuel with
  | zero =>
    intro ls c hc
    simp [extractScanFuel] at hc
  | succ n ih =>
    intro ls c hc
    cases ls with
    | nil => simp [extractScanFuel] at hc
    | cons line rest =>
      unfold extractScanFuel at hc
      dsimp only at hc
      cases hidx : indexOfSubstrL memMarkL (trimStartL line) with
      | none =>
        rw [hidx] at hc
        exact ih rest c hc
      | some idx =>
        rw [hidx] at hc
        dsimp only at hc
        by_cases hb : (collectBulletsL rest).1 ≠ []
        · rw [if_pos hb] at hc
          rcases List.mem_append.mp hc with h1 | h1
          · exact collectBulletsL_mem rest c h1
          · exact ih _ c h1
        · rw [if_neg hb] at hc
          rcases List.mem_append.mp hc with h1 | h1
          · by_cases hf : inlineFactL (trimL ((trimStartL line).drop
                (idx + memMarkL.length))) = []
            · rw [if_pos hf] at h1
              simp at h1
            · rw [if_neg hf] at h1
              simp only [List.mem_singleton] at h1
              subst h1
              exact inlineFactL_trim_ne_nil _ hf
          · exact ih _ c h1

theorem extractScanL_trim_ne_nil (ls : List (List Char)) :
    ∀ c ∈ extractScanL ls, trimL c ≠ [] :=
  extractScanFuel_trim_ne_nil ls.length ls

/-! ## Lemmas about the save loop -/

theorem dbFindMemoryByFact_insert_mono (f g cat : String) (sid : Option String)
    (now : String) (db : Db) (h : (dbFindMemoryByFact f db).isSome) :
    (dbFindMemoryByFact f (dbInsertMemory g cat sid now db).2).isSome := by
  unfold dbFindMemoryByFact at h ⊢
  unfold dbInsertMemory
  simp only [List.filter_append, List.find?_append]
  rcases Option.isSome_iff_exists.mp h with ⟨r, hr⟩
  rw [hr]
  rfl

theorem dbFindMemoryByFact_insert_self (f cat : String) (sid : Option String)
    (now : String) (db : Db) :
    (dbFindMemoryByFact f (dbInsertMemory f cat sid now db).2).isSome := by
  unfold dbFindMemoryByFact dbInsertMemory
  apply List.find?_isSome.mpr
  refine ⟨{ id := db.nextMemoryId, fact := f, category := cat,
            source_session := sid, created_at := now, superseded_by := none },
    ?_, by simp⟩
  simp [List.mem_filter]

theorem saveFact_none_of_found (f : String) (sid : Option String) (now : String)
    (db : Db) (h : (dbFindMemoryByFact f db).isSome) :
    saveFact f sid now db = none := by
  unfold saveFact
  rcases Option.isSome_iff_exists.mp h with ⟨r, hr⟩
  rw [hr]

theorem saveFact_some_eq (f : String) (sid : Option String) (now : String)
    (db db1 : Db) (h : saveFact f sid now db = some db1) :
    dbFindMemoryByFact f db = none ∧ db1 = (dbInsertMemory f "general" sid now db).2 := by
  unfold saveFact at h
  cases hf : dbFindMemoryByFact f db with
  | some r => rw [hf] at h; exact Option.noConfusion h
  | none =>
    rw [hf] at h
    exact ⟨rfl, (Option.some_inj.mp h).symm⟩

theorem saveFacts_find_mono (sid : Option String) (now : String)
    (cs : List String) (f : String) : ∀ (db : Db),
    (dbFindMemoryByFact f db).isSome →
    (dbFindMemoryByFact f (saveFacts sid now cs db).2).isSome := by
  induction cs with
  | nil => intro db h; exact h
  | cons c cs ih =>
    intro db h
    unfold saveFacts
    cases hsf : saveFact c sid now db with
    | none => exact ih db h
    | some db1 =>
      dsimp only
      rcases saveFact_some_eq c sid now db db1 hsf with ⟨_, hdb1⟩
      subst hdb1
      exact ih _ (dbFindMemoryByFact_insert_mono f c "general" sid now db h)

theorem saveFacts_all_found (sid : Option String) (now : String)
    (cs : List String) : ∀ (db : Db),
    ∀ c ∈ cs, (dbFindMemoryByFact c (saveFacts sid now cs db).2).isSome := by
  induction cs with
  | nil => intro db c hc; simp at hc
  | cons c cs ih =>
    intro db d hd
    unfold saveFacts
    cases hsf : saveFact c sid now db with
    | none =>
      rcases List.mem_cons.mp hd with h1 | h1
      · subst h1
        have hfound : (dbFindMemoryByFact d db).isSome := by
          unfold saveFact at hsf
          cases hf : dbFindMemoryByFact d db with
          | some r => rfl
          | none => rw [hf] at hsf; exact Option.noConfusion hsf
        exact saveFacts_find_mono sid now cs d db hfound
      · exact ih db d h1
    | some db1 =>
      dsimp only
      rcases saveFact_some_eq c sid now db db1 hsf with ⟨_, hdb1⟩
      subst hdb1
      rcases List.mem_cons.mp hd with h1 | h1
      · subst h1
        exact saveFacts_find_mono sid now cs d _
          (dbFindMemoryByFact_insert_self d "general" sid now db)
      · exact ih _ d h1

theorem saveFacts_nop (sid : Option String) (now : String) (cs : List String)
    (db : Db) (h : ∀ c ∈ cs, (dbFindMemoryByFact c db).isSome) :
    saveFacts sid now cs db = ([], db) := by
  induction cs with
  | nil => rfl
  | cons c cs ih =>
    unfold saveFacts
    rw [saveFact_none_of_found c sid now db (h c (List.mem_cons_self c cs))]
    exact ih (fun d hd => h d (List.mem_cons_of_mem c hd))

theorem saveFacts_memories (sid : Option String) (now : String)
    (cs : List String) : ∀ (db : Db), ∃ newRows : List MemoryRow,
    (saveFacts sid now cs db).2.memories = db.memories ++ newRows ∧
    newRows.map (fun r => r.fact) = (saveFacts sid now cs db).1 := by
  induction cs with
  | nil => intro db; exact ⟨[], by simp [saveFacts]⟩
  | cons c cs ih =>
    intro db
    unfold saveFacts
    cases hsf : saveFact c sid now db with
    | none => exact ih db
    | some db1 =>
      dsimp only
      rcases saveFact_some_eq c sid now db db1 hsf with ⟨_, hdb1⟩
      rcases ih db1 with ⟨nr, hnr1, hnr2⟩
      refine ⟨{ id := db.nextMemoryId, fact := c, category := "general",
                source_session := sid, created_at := now,
                superseded_by := none } :: nr,
        ?_, ?_⟩
      · rw [hnr1, hdb1]
        simp [dbInsertMemory]
      · simp [hnr2]

theorem saveFacts_sub (sid : Option String) (now : String)
    (cs : List String) : ∀ (db : Db), ∀ f ∈ (saveFacts sid now cs db).1, f ∈ cs := by
  induction cs with
  | nil => intro db f hf; simp [saveFacts] at hf
  | cons c cs ih =>
    intro db f hf
    unfold saveFacts at hf
    cases hsf : saveFact c sid now db with
    | none =>
      rw [hsf] at hf
      exact List.mem_cons_of_mem c (ih db f hf)
    | some db1 =>
      rw [hsf] at hf
      dsimp only at hf
      rcases List.mem_cons.mp hf with h1 | h1
      · exact h1 ▸ List.mem_cons_self c cs
      · exact List.mem_cons_of_mem c (ih db1 f h1)

/-! ## Claim theorems: extraction (C3, C9, C6) -/

/-- C3 — Extraction dedup idempotence: running `extractAndSaveMemories` a
second time on the identical text returns no newly-saved facts and leaves
the store exactly unchanged, and the value returned by a call is exactly
the list of facts that call persisted (the store's fact column after the
call is the prior column plus the returned list, in order). -/
theorem extraction_dedup_idempotent (text : String) (sid : Option String)
    (now1 now2 : String) (db : Db) :
    extractAndSaveMemories text sid now2
        (extractAndSaveMemories text sid now1 db).2 =
      ([], (extractAndSaveMemories text sid now1 db).2) ∧
    (extractAndSaveMemories text sid now1 db).2.memories.map (fun r => r.fact) =
      db.memories.map (fun r => r.fact) ++ (extractAndSaveMemories text sid now1 db).1 := by
  constructor
  · unfold extractAndSaveMemories
    exact saveFacts_nop sid now2 (extractCandidates text) _
      (fun c hc => saveFacts_all_found sid now1 (extractCandidates text) db c hc)
  · unfold extractAndSaveMemories
    rcases saveFacts_memories sid now1 (extractCandidates text) db with ⟨nr, h1, h2⟩
    rw [h1, List.map_append, h2]

/-- C9 — No empty facts persisted: every fact returned by
`extractAndSaveMemories`, and the fact of every row it adds to the store,
is non-empty after trimming.  (Bullet candidates cannot be empty because
the line is trimmed before the `"- "` test, and inline candidates are
either guarded non-empty or end in their sentence terminator.) -/
theorem no_empty_facts_persisted (text : String) (sid : Option String)
    (now : String) (db : Db) :
    (∀ f ∈ (extractAndSaveMemories text sid now db).1, strTrim f ≠ "") ∧
    (∀ r ∈ (extractAndSaveMemories text sid now db).2.memories,
      r ∈ db.memories ∨ strTrim r.fact ≠ "") := by
  have hcand : ∀ f ∈ extractCandidates text, strTrim f ≠ "" := by
    intro f hf
    unfold extractCandidates at hf
    rcases List.mem_map.mp hf with ⟨l, hl, hfl⟩
    subst hfl
    have := extractScanL_trim_ne_nil _ l hl
    unfold strTrim
    intro hcon
    apply this
    have : trimL l = "".data := congrArg String.data hcon
    simpa using this
  have hsaved : ∀ f ∈ (extractAndSaveMemories text sid now db).1, strTrim f ≠ "" := by
    intro f hf
    exact hcand f (saveFacts_sub sid now (extractCandidates text) db f hf)
  refine ⟨hsaved, ?_⟩
  intro r hr
  unfold extractAndSaveMemories at hr
  rcases saveFacts_memories sid now (extractCandidates text) db with ⟨nr, h1, h2⟩
  rw [h1] at hr
  rcases List.mem_append.mp hr with h3 | h3
  · exact Or.inl h3
  · right
    apply hsaved
    unfold extractAndSaveMemories
    rw [← h2]
    exact List.mem_map_of_mem (fun r => r.fact) h3

theorem indexOfSubstrL_of_isPrefixOf (pat l : List Char)
    (h : pat.isPrefixOf l = true) : indexOfSubstrL pat l = some 0 := by
  cases l with
  | nil =>
    unfold indexOfSubstrL
    rw [if_pos h]
  | cons c cs =>
    unfold indexOfSubstrL
    rw [if_pos h]

/-- C6 — Inline fact parsing: extraction on the single line
`"[MEMORY] Added to memories: User has a cat named Pixel"` saves exactly
the fact `"User has a cat named Pixel"`; and in general a single marker
line with no following bullet list yields exactly the inline candidate:
the `added/updated to <word>:` prefix is stripped case-insensitively,
then the first sentence (terminator included) is kept if a sentence
boundary exists, else trailing punctuation is stripped — empty candidates
are dropped. -/
theorem inline_fact_parsing :
    extractAndSaveMemories "[MEMORY] Added to memories: User has a cat named Pixel"
        none "t0" Db.empty =
      (["User has a cat named Pixel"],
        { sessions := [], messages := [],
          memories := [{ id := 0, fact := "User has a cat named Pixel",
                         category := "general", source_session := none,
                         created_at := "t0", superseded_by := none }],
          nextMessageId := 0, nextMemoryId := 1 }) ∧
    (∀ rest : List Char, extractScanL [memMarkL ++ rest] =
      if inlineFactL (trimL rest) = [] then [] else [inlineFactL (trimL rest)]) := by
  constructor
  · decide
  · intro rest
    have h1 : trimStartL (memMarkL ++ rest) = memMarkL ++ rest := by
      apply trimStartL_eq_self
      intro c hc
      have hh : (memMarkL ++ rest).head? = some '[' := rfl
      rw [hh] at hc
      have : c = '[' := (Option.some_inj.mp hc).symm
      subst this
      decide
    have h2 : indexOfSubstrL memMarkL (memMarkL ++ rest) = some 0 :=
      indexOfSubstrL_of_isPrefixOf _ _
        (List.isPrefixOf_iff_prefix.mpr (List.prefix_append _ _))
    show extractScanFuel 1 [memMarkL ++ rest] = _
    unfold extractScanFuel
    dsimp only
    rw [h1, h2]
    dsimp only
    have h3 : (memMarkL ++ rest).drop (0 + memMarkL.length) = rest := by
      simp [List.drop_left]
    rw [h3]
    have h4 : collectBulletsL [] = ([], 0) := rfl
    rw [h4]
    dsimp only
    rw [if_neg (by simp)]
    simp [extractScanFuel]

/-! ## Lemmas for the supersession invariant (C1) -/

theorem dbSupersedeMemory_ok (oldId newId : Nat) (db db1 : Db)
    (h : dbSupersedeMemory oldId newId db = .ok db1) :
    db1.memories = db.memories.map (fun m =>
      if m.id = oldId then { m with superseded_by := some newId } else m) ∧
    db1.nextMemoryId = db.nextMemoryId := by
  unfold dbSupersedeMemory at h
  by_cases hc : (db.memories.any fun m => m.id = oldId) = true ∧
      (db.memories.any fun m => m.id = newId) = true
  · rw [if_pos hc] at h
    cases h
    exact ⟨rfl, rfl⟩
  · rw [if_neg hc] at h
    exact Except.noConfusion h

theorem applyMemOp_bounded (db : Db) (op : MemOp) (h : memIdsBounded db) :
    memIdsBounded (applyMemOp db op) := by
  cases op with
  | insert f c s t =>
    intro r hr
    unfold applyMemOp dbInsertMemory at hr ⊢
    dsimp only at hr ⊢
    rcases List.mem_append.mp hr with h1 | h1
    · exact Nat.lt_succ_of_lt (h r h1)
    · simp at h1
      subst h1
      exact Nat.lt_succ_self _
  | supersede o n =>
    intro r hr
    unfold applyMemOp at hr ⊢
    dsimp only at hr ⊢
    cases hs : dbSupersedeMemory o n db with
    | ok db1 =>
      rw [hs] at hr
      dsimp only at hr ⊢
      rcases dbSupersedeMemory_ok o n db db1 hs with ⟨hm, hn⟩
      rw [hm] at hr
      rw [hn]
      rcases List.mem_map.mp hr with ⟨r0, hr0, hr0e⟩
      have := h r0 hr0
      subst hr0e
      by_cases hid : r0.id = o
      · rw [if_pos hid]
        exact this
      · rw [if_neg hid]
        exact this
    | error e =>
      rw [hs] at hr
      dsimp only at hr ⊢
      exact h r hr

theorem applyMemOp_nextId_mono (db : Db) (op : MemOp) :
    db.nextMemoryId ≤ (applyMemOp db op).nextMemoryId := by
  cases op with
  | insert f c s t => exact Nat.le_succ _
  | supersede o n =>
    unfold applyMemOp
    dsimp only
    cases hs : dbSupersedeMemory o n db with
    | ok db1 =>
      rcases dbSupersedeMemory_ok o n db db1 hs with ⟨_, hn⟩
      dsimp only
      rw [hn]
    | error e =>
      dsimp only
      exact Nat.le_refl _

theorem applyMemOp_keeps_superseded (db : Db) (op : MemOp) (i : Nat)
    (hlt : i < db.nextMemoryId)
    (h : ∀ r ∈ db.memories, r.id = i → r.superseded_by ≠ none) :
    ∀ r ∈ (applyMemOp db op).memories, r.id = i → r.superseded_by ≠ none := by
  cases op with
  | insert f c s t =>
    intro r hr hid
    unfold applyMemOp dbInsertMemory at hr
    dsimp only at hr
    rcases List.mem_append.mp hr with h1 | h1
    · exact h r h1 hid
    · simp at h1
      subst h1
      simp at hid
      omega
  | supersede o n =>
    intro r hr hid
    unfold applyMemOp at hr
    dsimp only at hr
    cases hs : dbSupersedeMemory o n db with
    | ok db1 =>
      rw [hs] at hr
      dsimp only at hr
      rcases dbSupersedeMemory_ok o n db db1 hs with ⟨hm, _⟩
      rw [hm] at hr
      rcases List.mem_map.mp hr with ⟨r0, hr0, hr0e⟩
      by_cases hido : r0.id = o
      · rw [if_pos hido] at hr0e
        subst hr0e
        simp
      · rw [if_neg hido] at hr0e
        subst hr0e
        exact h r0 hr0 hid
    | error e =>
      rw [hs] at hr
      dsimp only at hr
      exact h r hr hid

theorem applyMemOp_keeps_active (db : Db) (op : MemOp) (m : MemoryRow)
    (hop : op.supersedes m.id = false)
    (h : ∃ r ∈ db.memories, r.id = m.id ∧ r.fact = m.fact ∧ r.superseded_by = none) :
    ∃ r ∈ (applyMemOp db op).memories,
      r.id = m.id ∧ r.fact = m.fact ∧ r.superseded_by = none := by
  rcases h with ⟨r, hr, hrid, hrf, hrs⟩
  cases op with
  | insert f c s t =>
    refine ⟨r, ?_, hrid, hrf, hrs⟩
    unfold applyMemOp dbInsertMemory
    dsimp only
    exact List.mem_append_left _ hr
  | supersede o n =>
    unfold MemOp.supersedes at hop
    have hon : o ≠ m.id := by
      intro he
      rw [he] at hop
      simp at hop
    unfold applyMemOp
    dsimp only
    cases hs : dbSupersedeMemory o n db with
    | ok db1 =>
      rcases dbSupersedeMemory_ok o n db db1 hs with ⟨hm, _⟩
      refine ⟨r, ?_, hrid, hrf, hrs⟩
      dsimp only
      rw [hm]
      apply List.mem_map.mpr
      refine ⟨r, hr, ?_⟩
      rw [if_neg (by rw [hrid]; exact fun he => hon he.symm)]
    | error e =>
      dsimp only
      exact ⟨r, hr, hrid, hrf, hrs⟩

theorem applyMemOps_inv (ops : List MemOp) : ∀ (db : Db) (i : Nat),
    memIdsBounded db → i < db.nextMemoryId →
    (∀ r ∈ db.memories, r.id = i → r.superseded_by ≠ none) →
    (∀ r ∈ (applyMemOps db ops).memories, r.id = i → r.superseded_by ≠ none) := by
  induction ops with
  | nil => intro db i _ _ h; exact h
  | cons op ops ih =>
    intro db i hb hlt h
    have hb1 := applyMemOp_bounded db op hb
    have hlt1 : i < (applyMemOp db op).nextMemoryId :=
      Nat.lt_of_lt_of_le hlt (applyMemOp_nextId_mono db op)
    have h1 := applyMemOp_keeps_superseded db op i hlt h
    exact ih (applyMemOp db op) i hb1 hlt1 h1

theorem applyMemOps_active (ops : List MemOp) (m : MemoryRow)
    (hops : ∀ op ∈ ops, op.supersedes m.id = false) : ∀ (db : Db),
    (∃ r ∈ db.memories, r.id = m.id ∧ r.fact = m.fact ∧ r.superseded_by = none) →
    ∃ r ∈ (applyMemOps db ops).memories,
      r.id = m.id ∧ r.fact = m.fact ∧ r.superseded_by = none := by
  induction ops with
  | nil => intro db h; exact h
  | cons op ops ih =>
    intro db h
    exact ih (fun o ho => hops o (List.mem_cons_of_mem op ho)) (applyMemOp db op)
      (applyMemOp_keeps_active db op m (hops op (List.mem_cons_self op ops)) h)

theorem mem_dbGetActiveMemories (db : Db) (r : MemoryRow) :
    r ∈ dbGetActiveMemories db ↔ r ∈ db.memories ∧ r.superseded_by = none := by
  unfold dbGetActiveMemories
  rw [List.mem_mergeSort, List.mem_filter]
  simp

theorem dbFindMemoryByFact_some (f : String) (db : Db) (r : MemoryRow)
    (h : dbFindMemoryByFact f db = some r) :
    r ∈ db.memories ∧ r.superseded_by = none ∧ r.fact = f := by
  unfold dbFindMemoryByFact at h
  have hmem := List.mem_of_find?_eq_some h
  have hpred := List.find?_some h
  rw [List.mem_filter] at hmem
  refine ⟨hmem.1, by simpa using hmem.2, by simpa using hpred⟩

theorem mem_searchMemRows (q : String) (db : Db) (r : MemoryRow)
    (h : r ∈ searchMemRows q db) :
    r ∈ db.memories ∧ r.superseded_by = none := by
  unfold searchMemRows at h
  rw [List.mem_filter] at h
  refine ⟨h.1, ?_⟩
  have := h.2
  simp at this
  exact this.1

/-! ## Claim theorem: supersession invariant (C1, amended) -/

/-- C1 (amended) — Supersession invariant: for stored memories `old` and
`new` (distinct ids, `new` active), after a successful
`supersedeMemory(old.id, new.id)` and any further insert/supersede
operations none of which supersedes `new`: no row with `old`'s id is ever
active, selected by full-text memory search (hence absent from
`searchMemories` and merged `search` results), or returned by
`findMemoryByFact`; `findMemoryByFact old.fact` returns `none` whenever
no active row carries that exact text (the original claim's unconditional
`none` fails when another active memory shares the text — see the
counterexample); and `new` remains active and findable. -/
theorem supersession_invariant (db db1 : Db) (old new : MemoryRow)
    (ops : List MemOp)
    (hb : memIdsBounded db)
    (hold : old ∈ db.memories) (hnew : new ∈ db.memories)
    (hne : old.id ≠ new.id) (hact : new.superseded_by = none)
    (hops : ∀ op ∈ ops, op.supersedes new.id = false)
    (hsup : dbSupersedeMemory old.id new.id db = .ok db1) :
    (∀ r ∈ dbGetActiveMemories (applyMemOps db1 ops), r.id ≠ old.id) ∧
    (∀ q : String, ∀ r ∈ searchMemRows q (applyMemOps db1 ops), r.id ≠ old.id) ∧
    (∀ r : MemoryRow, dbFindMemoryByFact old.fact (applyMemOps db1 ops) = some r →
      r.id ≠ old.id) ∧
    ((∀ r ∈ (applyMemOps db1 ops).memories, r.superseded_by = none →
        r.fact ≠ old.fact) →
      dbFindMemoryByFact old.fact (applyMemOps db1 ops) = none) ∧
    (∃ r ∈ dbGetActiveMemories (applyMemOps db1 ops),
      r.id = new.id ∧ r.fact = new.fact) ∧
    (dbFindMemoryByFact new.fact (applyMemOps db1 ops)).isSome := by
  rcases dbSupersedeMemory_ok old.id new.id db db1 hsup with ⟨hmem1, hnext1⟩
  have hb1 : memIdsBounded db1 := by
    intro r hr
    rw [hmem1] at hr
    rcases List.mem_map.mp hr with ⟨r0, hr0, hr0e⟩
    have := hb r0 hr0
    rw [hnext1]
    by_cases hid : r0.id = old.id
    · rw [if_pos hid] at hr0e
      subst hr0e
      exact this
    · rw [if_neg hid] at hr0e
      subst hr0e
      exact this
  have hlt1 : old.id < db1.nextMemoryId := by
    rw [hnext1]
    exact hb old hold
  have hP1 : ∀ r ∈ db1.memories, r.id = old.id → r.superseded_by ≠ none := by
    intro r hr hid
    rw [hmem1] at hr
    rcases List.mem_map.mp hr with ⟨r0, hr0, hr0e⟩
    by_cases hido : r0.id = old.id
    · rw [if_pos hido] at hr0e
      subst hr0e
      simp
    · rw [if_neg hido] at hr0e
      subst hr0e
      exact absurd hid hido
  have hP : ∀ r ∈ (applyMemOps db1 ops).memories, r.id = old.id →
      r.superseded_by ≠ none :=
    applyMemOps_inv ops db1 old.id hb1 hlt1 hP1
  have hQ1 : ∃ r ∈ db1.memories,
      r.id = new.id ∧ r.fact = new.fact ∧ r.superseded_by = none := by
    refine ⟨new, ?_, rfl, rfl, hact⟩
    rw [hmem1]
    apply List.mem_map.mpr
    refine ⟨new, hnew, ?_⟩
    rw [if_neg (fun he => hne he.symm)]
  have hQ : ∃ r ∈ (applyMemOps db1 ops).memories,
      r.id = new.id ∧ r.fact = new.fact ∧ r.superseded_by = none :=
    applyMemOps_active ops new hops db1 hQ1
  refine ⟨?_, ?_, ?_, ?_, ?_, ?_⟩
  · intro r hr hid
    rw [mem_dbGetActiveMemories] at hr
    exact hP r hr.1 hid hr.2
  · intro q r hr hid
    rcases mem_searchMemRows q _ r hr with ⟨h1, h2⟩
    exact hP r h1 hid h2
  · intro r hr hid
    rcases dbFindMemoryByFact_some _ _ r hr with ⟨h1, h2, _⟩
    exact hP r h1 hid h2
  · intro hno
    unfold dbFindMemoryByFact
    apply List.find?_eq_none.mpr
    intro r hr
    rw [List.mem_filter] at hr
    have hs : r.superseded_by = none := by simpa using hr.2
    have := hno r hr.1 hs
    simp [this]
  · rcases hQ with ⟨r, hr, hid, hf, hs⟩
    exact ⟨r, (mem_dbGetActiveMemories _ r).mpr ⟨hr, hs⟩, hid, hf⟩
  · rcases hQ with ⟨r, hr, hid, hf, hs⟩
    unfold dbFindMemoryByFact
    apply List.find?_isSome.mpr
    refine ⟨r, ?_, by simp [hf]⟩
    rw [List.mem_filter]
    exact ⟨hr, by simp [hs]⟩

/-- Witness for C1 at a concrete store: two memories, a successful
supersession, then one further insert. -/
theorem supersession_invariant_witness :
    (∀ r ∈ dbGetActiveMemories (applyMemOps
        ⟨[], [], [⟨0, "Old fact", "general", none, "t0", some 1⟩,
          ⟨1, "New fact", "general", none, "t1", none⟩], 0, 2⟩
        [MemOp.insert "Another fact" "general" none "t2"]), r.id ≠ 0) ∧
    (∀ q : String, ∀ r ∈ searchMemRows q (applyMemOps
        ⟨[], [], [⟨0, "Old fact", "general", none, "t0", some 1⟩,
          ⟨1, "New fact", "general", none, "t1", none⟩], 0, 2⟩
        [MemOp.insert "Another fact" "general" none "t2"]), r.id ≠ 0) ∧
    (∀ r : MemoryRow, dbFindMemoryByFact "Old fact" (applyMemOps
        ⟨[], [], [⟨0, "Old fact", "general", none, "t0", some 1⟩,
          ⟨1, "New fact", "general", none, "t1", none⟩], 0, 2⟩
        [MemOp.insert "Another fact" "general" none "t2"]) = some r → r.id ≠ 0) ∧
    ((∀ r ∈ (applyMemOps
        ⟨[], [], [⟨0, "Old fact", "general", none, "t0", some 1⟩,
          ⟨1, "New fact", "general", none, "t1", none⟩], 0, 2⟩
        [MemOp.insert "Another fact" "general" none "t2"]).memories,
        r.superseded_by = none → r.fact ≠ "Old fact") →
      dbFindMemoryByFact "Old fact" (applyMemOps
        ⟨[], [], [⟨0, "Old fact", "general", none, "t0", some 1⟩,
          ⟨1, "New fact", "general", none, "t1", none⟩], 0, 2⟩
        [MemOp.insert "Another fact" "general" none "t2"]) = none) ∧
    (∃ r ∈ dbGetActiveMemories (applyMemOps
        ⟨[], [], [⟨0, "Old fact", "general", none, "t0", some 1⟩,
          ⟨1, "New fact", "general", none, "t1", none⟩], 0, 2⟩
        [MemOp.insert "Another fact" "general" none "t2"]),
      r.id = 1 ∧ r.fact = "New fact") ∧
    (dbFindMemoryByFact "New fact" (applyMemOps
        ⟨[], [], [⟨0, "Old fact", "general", none, "t0", some 1⟩,
          ⟨1, "New fact", "general", none, "t1", none⟩], 0, 2⟩
        [MemOp.insert "Another fact" "general" none "t2"])).isSome :=
  supersession_invariant
    ⟨[], [], [⟨0, "Old fact", "general", none, "t0", none⟩,
      ⟨1, "New fact", "general", none, "t1", none⟩], 0, 2⟩
    ⟨[], [], [⟨0, "Old fact", "general", none, "t0", some 1⟩,
      ⟨1, "New fact", "general", none, "t1", none⟩], 0, 2⟩
    ⟨0, "Old fact", "general", none, "t0", none⟩
    ⟨1, "New fact", "general", none, "t1", none⟩
    [MemOp.insert "Another fact" "general" none "t2"]
    (by decide) (by decide) (by decide) (by decide) (by decide)
    (by decide) rfl

/-- Counterexample to C1 as literally stated: after superseding the
memory `"Old fact"` by `"New fact"`, a subsequent insert that does not
supersede the new memory re-introduces the exact text `"Old fact"`, and
`findMemoryByFact "Old fact"` returns a row again instead of `none`. -/
theorem supersession_invariant_counterexample :
    dbSupersedeMemory 0 1
        ⟨[], [], [⟨0, "Old fact", "general", none, "t0", none⟩,
          ⟨1, "New fact", "general", none, "t1", none⟩], 0, 2⟩ =
      .ok ⟨[], [], [⟨0, "Old fact", "general", none, "t0", some 1⟩,
        ⟨1, "New fact", "general", none, "t1", none⟩], 0, 2⟩ ∧
    (MemOp.insert "Old fact" "general" none "t2").supersedes 1 = false ∧
    dbFindMemoryByFact "Old fact" (applyMemOps
        ⟨[], [], [⟨0, "Old fact", "general", none, "t0", some 1⟩,
          ⟨1, "New fact", "general", none, "t1", none⟩], 0, 2⟩
        [MemOp.insert "Old fact" "general" none "t2"]) =
      some ⟨2, "Old fact", "general", none, "t2", none⟩ :=
  ⟨rfl, rfl, rfl⟩

/-! ## Lemmas for session auto-titling (C8) -/

theorem find?_map_cond {α : Type} (q : α → Prop) [DecidablePred q] (g : α → α)
    (l : List α) (hg : ∀ x, q (g x) ↔ q x) :
    (l.map (fun x => if q x then g x else x)).find? (fun x => decide (q x)) =
      (l.find? (fun x => decide (q x))).map g := by
  induction l with
  | nil => rfl
  | cons x xs ih =>
    by_cases hp : q x
    · rw [List.map_cons, if_pos hp,
        List.find?_cons_of_pos _ (by simp [(hg x).mpr hp]),
        List.find?_cons_of_pos _ (by simp [hp])]
      rfl
    · rw [List.map_cons, if_neg hp,
        List.find?_cons_of_neg _ (by simp [hp]),
        List.find?_cons_of_neg _ (by simp [hp])]
      exact ih

theorem dbGetSession_update (id : String) (u : SessionUpdate) (db : Db) :
    dbGetSession id (dbUpdateSession id u db) =
      (dbGetSession id db).map (fun s =>
        { s with
          title := match u.title with | some t => some t | none => s.title,
          summary := match u.summary with | some t => some t | none => s.summary,
          tags := match u.tags with | some t => t | none => s.tags,
          updated_at :=
            match u.updatedAt with | some t => t | none => s.updated_at }) := by
  unfold dbGetSession dbUpdateSession
  dsimp only
  exact find?_map_cond (fun s => s.id = id)
    (fun s =>
      { s with
        title := match u.title with | some t => some t | none => s.title,
        summary := match u.summary with | some t => some t | none => s.summary,
        tags := match u.tags with | some t => t | none => s.tags,
        updated_at :=
          match u.updatedAt with | some t => t | none => s.updated_at })
    db.sessions (fun x => Iff.rfl)

theorem dbInsertMessage_keep_sessions (sid role content ts : String)
    (tok : Option Nat) (db : Db) :
    (match dbInsertMessage sid role content ts tok db with
     | .ok r => r.2
     | .error _ => db).sessions = db.sessions := by
  unfold dbInsertMessage
  by_cases h1 : ¬ db.sessions.any (fun s => s.id = sid) = true
  · rw [if_pos h1]
  · rw [if_neg h1]
    by_cases h2 : ¬ (role = "user" ∨ role = "assistant" ∨ role = "system")
    · rw [if_pos h2]
    · rw [if_neg h2]

theorem dbGetSession_congr (id : String) (db db2 : Db)
    (h : db.sessions = db2.sessions) : dbGetSession id db = dbGetSession id db2 := by
  unfold dbGetSession
  rw [h]

theorem appendMessage_sid (msg : Message) (now : String) (st : SessState)
    (db : Db) : (appendMessage msg now st db).1.currentSessionId =
      st.currentSessionId := by
  unfold appendMessage
  cases dbGetSession st.currentSessionId db with
  | none => rfl
  | some session =>
    dsimp only
    by_cases h : session.title = some "New session" ∧ msg.role = Role.user
    · rw [if_pos h]
    · rw [if_neg h]

theorem appendMessage_title_no_retitle (msg : Message) (now : String)
    (st : SessState) (db : Db)
    (hcond : ∀ s, dbGetSession st.currentSessionId db = some s →
      ¬ (s.title = some "New session" ∧ msg.role = Role.user)) :
    sessionTitle st.currentSessionId (appendMessage msg now st db).2 =
      sessionTitle st.currentSessionId db := by
  unfold appendMessage
  cases hget : dbGetSession st.currentSessionId db with
  | none => rfl
  | some session =>
    dsimp only
    rw [if_neg (hcond session hget)]
    unfold sessionTitle
    dsimp only
    rw [dbGetSession_update]
    rw [dbGetSession_congr _ _ db
      (dbInsertMessage_keep_sessions st.currentSessionId msg.role.toStr
        msg.content msg.timestamp none db)]
    rw [hget]
    rfl

theorem appendMessage_title_retitle (msg : Message) (now : String)
    (st : SessState) (db : Db) (s : SessionRow)
    (hget : dbGetSession st.currentSessionId db = some s)
    (htitle : s.title = some "New session") (hrole : msg.role = Role.user) :
    sessionTitle st.currentSessionId (appendMessage msg now st db).2 =
      some (some (strTake 60 msg.content)) := by
  unfold appendMessage
  rw [hget]
  dsimp only
  rw [if_pos ⟨htitle, hrole⟩]
  unfold sessionTitle
  dsimp only
  rw [dbGetSession_update]
  rw [dbGetSession_congr _ _ db
    (dbInsertMessage_keep_sessions st.currentSessionId msg.role.toStr
      msg.content msg.timestamp none db)]
  rw [hget]
  rfl

theorem appendAll_sid (msgs : List (Message × String)) : ∀ (st : SessState)
    (db : Db), (appendAll msgs st db).1.currentSessionId = st.currentSessionId := by
  induction msgs with
  | nil => intro st db; rfl
  | cons p ps ih =>
    intro st db
    show (appendAll ps (appendMessage p.1 p.2 st db).1
      (appendMessage p.1 p.2 st db).2).1.currentSessionId = _
    rw [ih, appendMessage_sid]

theorem appendAll_assistant_keeps (msgs : List (Message × String))
    (hmsgs : ∀ p ∈ msgs, p.1.role = Role.assistant) : ∀ (st : SessState) (db : Db),
    sessionTitle st.currentSessionId (appendAll msgs st db).2 =
      sessionTitle st.currentSessionId db := by
  induction msgs with
  | nil => intro st db; rfl
  | cons p ps ih =>
    intro st db
    show sessionTitle _ (appendAll ps (appendMessage p.1 p.2 st db).1
      (appendMessage p.1 p.2 st db).2).2 = _
    have hsid := appendMessage_sid p.1 p.2 st db
    rw [← hsid]
    rw [ih (fun q hq => hmsgs q (List.mem_cons_of_mem p hq))]
    rw [hsid]
    apply appendMessage_title_no_retitle
    intro s _ hcon
    have := hmsgs p (List.mem_cons_self p ps)
    rw [this] at hcon
    exact Role.noConfusion hcon.2

theorem appendAll_stable (msgs : List (Message × String)) (t : String)
    (hne : t ≠ "New session") : ∀ (st : SessState) (db : Db),
    sessionTitle st.currentSessionId db = some (some t) →
    sessionTitle st.currentSessionId (appendAll msgs st db).2 = some (some t) := by
  induction msgs with
  | nil => intro st db h; exact h
  | cons p ps ih =>
    intro st db h
    show sessionTitle _ (appendAll ps (appendMessage p.1 p.2 st db).1
      (appendMessage p.1 p.2 st db).2).2 = _
    have hsid := appendMessage_sid p.1 p.2 st db
    rw [← hsid]
    apply ih
    rw [hsid]
    rw [appendMessage_title_no_retitle]
    · exact h
    · intro s hget hcon
      unfold sessionTitle at h
      rw [hget] at h
      have hst : s.title = some t := by
        simpa using h
      rw [hst] at hcon
      exact hne (Option.some_inj.mp hcon.1.symm).symm

theorem appendAll_append (a b : List (Message × String)) (st : SessState)
    (db : Db) : appendAll (a ++ b) st db =
      appendAll b (appendAll a st db).1 (appendAll a st db).2 := by
  unfold appendAll
  rw [List.foldl_append]

/-! ## Claim theorem: session auto-titling (C8, amended) -/

/-- C8 (amended) — Session auto-titling: in a session created with the
initial title `"New session"`, appending any prefix of assistant messages
leaves the title unchanged; appending the first user-role message `m`
sets the stored title to the first 60 characters of `m.content`; and —
provided that 60-character prefix is not itself the literal
`"New session"` — no later append (user or assistant) ever changes the
title again.  (The proviso is forced: the source detects "still
untitled" by comparing the title to the sentinel string, so a first user
message reading exactly `"New session"` leaves the session re-titleable —
see the counterexample.) -/
theorem session_auto_titling (st : SessState) (db : Db) (s : SessionRow)
    (pre : List (Message × String)) (m : Message) (nowm : String)
    (post : List (Message × String))
    (hget : dbGetSession st.currentSessionId db = some s)
    (htitle : s.title = some "New session")
    (hpre : ∀ p ∈ pre, p.1.role = Role.assistant)
    (hrole : m.role = Role.user)
    (hne : strTake 60 m.content ≠ "New session") :
    sessionTitle st.currentSessionId
      (appendAll (pre ++ (m, nowm) :: post) st db).2 =
      some (some (strTake 60 m.content)) := by
  rw [appendAll_append]
  have hsid1 := appendAll_sid pre st db
  have h1 : sessionTitle st.currentSessionId (appendAll pre st db).2 =
      some (some "New session") := by
    rw [appendAll_assistant_keeps pre hpre st db]
    unfold sessionTitle
    rw [hget]
    simp [htitle]
  show sessionTitle _ (appendAll post
    (appendMessage m nowm (appendAll pre st db).1 (appendAll pre st db).2).1
    (appendMessage m nowm (appendAll pre st db).1 (appendAll pre st db).2).2).2 = _
  have hsid2 := appendMessage_sid m nowm (appendAll pre st db).1
    (appendAll pre st db).2
  have hsid3 : (appendMessage m nowm (appendAll pre st db).1
      (appendAll pre st db).2).1.currentSessionId = st.currentSessionId :=
    hsid2.trans hsid1
  rw [← hsid3]
  apply appendAll_stable post (strTake 60 m.content) hne
  rw [hsid3]
  have hget1 : ∃ s1, dbGetSession st.currentSessionId (appendAll pre st db).2 =
      some s1 ∧ s1.title = some "New session" := by
    unfold sessionTitle at h1
    cases hg : dbGetSession st.currentSessionId (appendAll pre st db).2 with
    | none => rw [hg] at h1; exact Option.noConfusion h1
    | some s1 =>
      rw [hg] at h1
      exact ⟨s1, rfl, by simpa using h1⟩
  rcases hget1 with ⟨s1, hg1, ht1⟩
  have := appendMessage_title_retitle m nowm (appendAll pre st db).1
    (appendAll pre st db).2 s1 (by rw [hsid1]; exact hg1) ht1 hrole
  rw [hsid1] at this
  exact this

/-- Witness for C8 at a concrete run: one assistant message, then the
first user message, then one further user message. -/
theorem session_auto_titling_witness :
    sessionTitle "s1"
      (appendAll ([(⟨Role.assistant, "Hi, how can I help?", "ts0"⟩, "t1")] ++
        (⟨Role.user, "Tell me about TypeScript generics", "ts1"⟩, "t2") ::
        [(⟨Role.user, "Second message", "ts2"⟩, "t3")])
        ⟨"s1", []⟩
        ⟨[⟨"s1", some "New session", none, "t0", "t0", "[]"⟩], [], [], 0, 0⟩).2 =
      some (some (strTake 60 "Tell me about TypeScript generics")) :=
  session_auto_titling ⟨"s1", []⟩
    ⟨[⟨"s1", some "New session", none, "t0", "t0", "[]"⟩], [], [], 0, 0⟩
    ⟨"s1", some "New session", none, "t0", "t0", "[]"⟩
    [(⟨Role.assistant, "Hi, how can I help?", "ts0"⟩, "t1")]
    ⟨Role.user, "Tell me about TypeScript generics", "ts1"⟩ "t2"
    [(⟨Role.user, "Second message", "ts2"⟩, "t3")]
    rfl rfl (by decide) rfl (by decide)

/-- Counterexample to C8 as literally stated: when the first user message
is exactly the sentinel `"New session"`, the session is still treated as
untitled and a later user message re-titles it, so the title does not
stay equal to the first user message's 60-character prefix. -/
theorem session_auto_titling_counterexample :
    sessionTitle "s1"
      (appendAll [(⟨Role.user, "New session", "ts1"⟩, "t1"),
          (⟨Role.user, "Hello", "ts2"⟩, "t2")]
        (initSession "s1" "t0" Db.empty).1
        (initSession "s1" "t0" Db.empty).2).2 = some (some "Hello") ∧
    strTake 60 "New session" ≠ "Hello" := by
  refine ⟨rfl, by decide⟩

/-! ## Claim theorems: agent loop (C2, amended) -/

theorem chatWithToolsGo_all_tools (respond : List ApiMsg → ModelResponse)
    (exec : String → List (String × String) → String)
    (h : ∀ msgs, (respond msgs).tools ≠ []) :
    ∀ (fuel : Nat) (msgs : List ApiMsg),
      chatWithToolsGo respond exec fuel msgs = "" := by
  intro fuel
  induction fuel with
  | zero => intro msgs; rfl
  | succ n ih =>
    intro msgs
    unfold chatWithToolsGo
    dsimp only
    rw [if_neg (by simpa using h msgs)]
    exact ih _

/-- C2 (amended) — Agent-loop budget exhaustion: when every one of the 10
rounds yields a response containing at least one tool-invocation request,
`chatWithTools` terminates normally (no exception path exists in the
loop) but returns the empty string: `finalText` is assigned only in the
tool-free branch, so the text accumulated in the last round is discarded
rather than returned (the original claim's "equals the text accumulated
in the last round" fails — see the counterexample). -/
theorem agent_loop_budget_exhaustion (respond : List ApiMsg → ModelResponse)
    (exec : String → List (String × String) → String) (messages : List Message)
    (h : ∀ msgs, (respond msgs).tools ≠ []) :
    chatWithTools respond exec messages = "" :=
  chatWithToolsGo_all_tools respond exec h MAX_TOOL_ROUNDS _

/-- Witness for C2: a completion oracle that always requests one tool
call; the loop exhausts its budget and returns `""`. -/
theorem agent_loop_budget_exhaustion_witness :
    chatWithTools
      (fun _ => ⟨"partial", [⟨"t1", "read_file", [("path", "notes.md")]⟩]⟩)
      (fun _ _ => "ok") [] = "" :=
  agent_loop_budget_exhaustion
    (fun _ => ⟨"partial", [⟨"t1", "read_file", [("path", "notes.md")]⟩]⟩)
    (fun _ _ => "ok") [] (fun _ => List.cons_ne_nil _ _)

/-- Counterexample to C2 as literally stated: every round accumulates the
text `"partial"` and requests a tool, yet the loop returns `""`, not the
last round's accumulated text. -/
theorem agent_loop_budget_exhaustion_counterexample :
    chatWithTools
      (fun _ => ⟨"partial", [⟨"t1", "read_file", [("path", "notes.md")]⟩]⟩)
      (fun _ _ => "ok") [] = "" ∧ ("partial" : String) ≠ "" := by
  refine ⟨rfl, ?_⟩
  decide

/-! ## Claim theorems: context assembly (C10, C4) -/

/-- C10 — Disabled-vector equivalence: with the semantic index disabled,
`buildAugmentedPrompt` returns a string exactly equal to
`buildSystemPrompt` with the same fallback session count, for every user
message and every behavior of the vector service. -/
theorem disabled_vector_equivalence (env : PromptEnv) (db : Db)
    (svc : VectorQuery → Except Unit (List RawVectorResult))
    (userMessage : String) (n : Nat) :
    buildAugmentedPrompt env db false svc userMessage n =
      buildSystemPrompt env db n := rfl

/-- C4 — Independent fallbacks in augmented assembly: the augmented
prompt decomposes into the lead sections, a memory section depending only
on the memory-relevance query outcome, and a history section depending
only on the session-relevance query outcome (so each fallback is decided
independently of the other); a rejected memory query yields exactly the
full active-memories section and a rejected session query yields exactly
the recency-ordered session summaries; and when the memory query fails
while active memories exist, the returned prompt is the join of a parts
list that contains the active-memories fallback section.  The function is
total — a rejected query (`Except.error`) is consumed here and never
propagates. -/
theorem independent_fallbacks (env : PromptEnv) (db : Db)
    (svc : VectorQuery → Except Unit (List RawVectorResult))
    (u : String) (n : Nat) :
    (buildAugmentedPrompt env db true svc u n =
      joinSections (leadParts env
        ++ memorySection db (queryRelevantMemories true svc u 10)
        ++ historySection db n (queryRelevantSessions true svc u 5))) ∧
    (∀ e : Unit, memorySection db (.error e) = activeMemoriesBlock db) ∧
    (∀ e : Unit, historySection db n (.error e) =
      (getRecentSessions n db).map summarizeSession) ∧
    (queryRelevantMemories true svc u 10 = .error () →
      dbGetActiveMemories db ≠ [] →
      ∃ parts, buildAugmentedPrompt env db true svc u n = joinSections parts ∧
        joinNl (["# Active Memories", ""]
          ++ (dbGetActiveMemories db).map (fun m => "- " ++ m.fact)) ∈ parts) := by
  have hmain : buildAugmentedPrompt env db true svc u n =
      joinSections (leadParts env
        ++ memorySection db (queryRelevantMemories true svc u 10)
        ++ historySection db n (queryRelevantSessions true svc u 5)) := by
    unfold buildAugmentedPrompt memorySection historySection
    rw [if_neg (fun hc => hc rfl)]
  refine ⟨hmain, fun e => rfl, fun e => rfl, ?_⟩
  intro herr hmem
  refine ⟨leadParts env
    ++ memorySection db (queryRelevantMemories true svc u 10)
    ++ historySection db n (queryRelevantSessions true svc u 5), hmain, ?_⟩
  rw [herr]
  apply List.mem_append_left
  apply List.mem_append_right
  unfold memorySection activeMemoriesBlock
  dsimp only
  rw [if_neg hmem]
  exact List.mem_singleton_self _

/-- Witness for C4: a service that rejects memory-filtered queries but
answers session-filtered ones, over a store holding one active memory. -/
theorem independent_fallbacks_witness :
    ∃ parts, buildAugmentedPrompt ⟨"base", true, "profile", []⟩
        ⟨[], [], [⟨0, "User likes coffee", "general", none, "t0", none⟩], 0, 1⟩
        true
        (fun q => if q.typeFilter = some "memory" then .error () else .ok [])
        "query" 3 = joinSections parts ∧
      joinNl (["# Active Memories", ""]
        ++ (dbGetActiveMemories
            ⟨[], [], [⟨0, "User likes coffee", "general", none, "t0", none⟩],
              0, 1⟩).map (fun m => "- " ++ m.fact)) ∈ parts :=
  (independent_fallbacks ⟨"base", true, "profile", []⟩
    ⟨[], [], [⟨0, "User likes coffee", "general", none, "t0", none⟩], 0, 1⟩
    (fun q => if q.typeFilter = some "memory" then .error () else .ok [])
    "query" 3).2.2.2 rfl
    (by
      intro hcon
      have hx : (⟨0, "User likes coffee", "general", none, "t0", none⟩ : MemoryRow) ∈
          dbGetActiveMemories
            ⟨[], [], [⟨0, "User likes coffee", "general", none, "t0", none⟩],
              0, 1⟩ :=
        (mem_dbGetActiveMemories _ _).mpr ⟨by decide, rfl⟩
      rw [hcon] at hx
      exact List.not_mem_nil _ hx)

/-! ## Claim theorems: semantic query boundary (C5, amended) -/

/-- C5 (amended) — Semantic query degradation at the client boundary:
with no configured index, `queryRelevantContext` returns the empty
sequence without consulting the service; when the service answers, the
results are converted preserving ids, metadata, count (hence at most
`topK` when the service honors its contract) and score order; but when
the index is configured and the service call rejects, the rejection
propagates to the immediate caller — `queryRelevantContext` itself has no
catch, and the error is absorbed only at the context-assembly boundary
(the original claim's "never raises to its caller" fails — see the
counterexample). -/
theorem semantic_query_degradation
    (svc : VectorQuery → Except Unit (List RawVectorResult))
    (q : String) (k : Nat) (tf : Option String) :
    (queryRelevantContext false svc q k tf = .ok []) ∧
    (∀ e, svc ⟨q, k, tf⟩ = .error e →
      queryRelevantContext true svc q k tf = .error e) ∧
    (∀ rs, svc ⟨q, k, tf⟩ = .ok rs → rs.length ≤ k →
      List.Chain' (fun a b => b.score ≤ a.score) rs →
      ∃ out, queryRelevantContext true svc q k tf = .ok out ∧
        out.length ≤ k ∧
        List.Chain' (fun a b => b.score ≤ a.score) out ∧
        out.map (fun r => r.metadata) = rs.map (fun r => r.metadata) ∧
        out.map (fun r => r.id) = rs.map (fun r => r.id)) := by
  refine ⟨rfl, ?_, ?_⟩
  · intro e he
    unfold queryRelevantContext
    rw [if_neg (by simp)]
    rw [he]
    rfl
  · intro rs hrs hlen hchain
    refine ⟨rs.map (fun r => ⟨r.id, r.score, r.metadata⟩), ?_, ?_, ?_, ?_, ?_⟩
    · unfold queryRelevantContext
      rw [if_neg (by simp)]
      rw [hrs]
      rfl
    · simpa using hlen
    · rw [List.chain'_map]
      exact hchain
    · simp
    · simp

/-- Witness for C5 at a concrete service answer of two descending-score
hits. -/
theorem semantic_query_degradation_witness :
    ∃ out, queryRelevantContext true
        (fun _ => .ok [⟨"memory:1", 2, ⟨"memory", none, none, some "A", none, none⟩⟩,
          ⟨"memory:2", 1, ⟨"memory", none, none, some "B", none, none⟩⟩])
        "query" 5 (some "memory") = .ok out ∧
      out.length ≤ 5 ∧
      List.Chain' (fun a b => b.score ≤ a.score) out ∧
      out.map (fun r => r.metadata) =
        [⟨"memory", none, none, some "A", none, none⟩,
          ⟨"memory", none, none, some "B", none, none⟩] ∧
      out.map (fun r => r.id) = ["memory:1", "memory:2"] :=
  (semantic_query_degradation
    (fun _ => .ok [⟨"memory:1", 2, ⟨"memory", none, none, some "A", none, none⟩⟩,
      ⟨"memory:2", 1, ⟨"memory", none, none, some "B", none, none⟩⟩])
    "query" 5 (some "memory")).2.2
    [⟨"memory:1", 2, ⟨"memory", none, none, some "A", none, none⟩⟩,
      ⟨"memory:2", 1, ⟨"memory", none, none, some "B", none, none⟩⟩]
    rfl (by decide)
    (by
      refine List.chain'_cons.mpr ⟨?_, List.chain'_singleton _⟩
      norm_num)

/-- Counterexample to C5 as literally stated: with a configured index and
an unreachable service, `queryRelevantContext` propagates the rejection
instead of returning the empty sequence. -/
theorem semantic_query_degradation_counterexample :
    queryRelevantContext true (fun _ => .error ()) "query" 5 (some "memory") =
      .error () ∧
    (Except.error () : Except Unit (List VectorSearchResult)) ≠ .ok [] := by
  refine ⟨rfl, fun h => Except.noConfusion h⟩

/-! ## Lemmas for sandboxed command confinement (C7) -/

theorem splitCharL_not_mem (sep : Char) (l : List Char) :
    ∀ p ∈ splitCharL sep l, sep ∉ p := by
  induction l with
  | nil =>
    intro p hp
    simp [splitCharL] at hp
    subst hp
    simp
  | cons c rest ih =>
    intro p hp
    unfold splitCharL at hp
    dsimp only at hp
    by_cases hc : c = sep
    · rw [if_pos hc] at hp
      rcases List.mem_cons.mp hp with h1 | h1
      · subst h1
        simp
      · exact ih p h1
    · rw [if_neg hc] at hp
      cases hr : splitCharL sep rest with
      | nil =>
        rw [hr] at hp
        simp at hp
        subst hp
        simp
        exact fun he => hc he.symm
      | cons h t =>
        rw [hr] at hp
        rcases List.mem_cons.mp hp with h1 | h1
        · subst h1
          intro hmem
          rcases List.mem_cons.mp hmem with h2 | h2
          · exact hc h2.symm
          · exact ih h (by rw [hr]; exact List.mem_cons_self h t) h2
        · exact ih p (by rw [hr]; exact List.mem_cons_of_mem h h1)

theorem normStep_mem (acc : List (List Char)) (seg s : List Char)
    (h : s ∈ normStep acc seg) : s ∈ acc ∨ s = seg := by
  unfold normStep at h
  by_cases h1 : seg = [] ∨ seg = ['.']
  · rw [if_pos h1] at h
    exact Or.inl h
  · rw [if_neg h1] at h
    by_cases h2 : seg = ['.', '.']
    · rw [if_pos h2] at h
      exact Or.inl ((List.dropLast_sublist acc).mem h)
    · rw [if_neg h2] at h
      rcases List.mem_append.mp h with h3 | h3
      · exact Or.inl h3
      · exact Or.inr (by simpa using h3)

theorem foldl_normStep_mem (segs : List (List Char)) : ∀ (acc : List (List Char))
    (s : List Char), s ∈ segs.foldl normStep acc → s ∈ acc ∨ s ∈ segs := by
  induction segs with
  | nil => intro acc s h; exact Or.inl h
  | cons seg rest ih =>
    intro acc s h
    rcases ih (normStep acc seg) s h with h1 | h1
    · rcases normStep_mem acc seg s h1 with h2 | h2
      · exact Or.inl h2
      · exact Or.inr (h2 ▸ List.mem_cons_self seg rest)
    · exact Or.inr (List.mem_cons_of_mem _ h1)

theorem normalizeSegs_mem (segs : List (List Char)) :
    ∀ s ∈ normalizeSegs segs, s ∈ segs := by
  intro s h
  rcases foldl_normStep_mem segs [] s h with h1 | h1
  · exact absurd h1 (List.not_mem_nil s)
  · exact h1

theorem resolvePath_no_slash (base : List (List Char)) (name : List Char)
    (hbase : ∀ s ∈ base, '/' ∉ s) : ∀ s ∈ resolvePath base name, '/' ∉ s := by
  intro s hs
  unfold resolvePath at hs
  split at hs
  · exact splitCharL_not_mem '/' _ s (normalizeSegs_mem _ s hs)
  · rcases List.mem_append.mp (normalizeSegs_mem _ s hs) with h1 | h1
    · exact hbase s h1
    · exact splitCharL_not_mem '/' _ s h1

theorem seg_append_pfx_iff (b : List Char) : ∀ (r X Y : List Char),
    '/' ∉ b → '/' ∉ r → X.head? = some '/' →
    (Y = [] ∨ Y.head? = some '/') →
    ((b ++ X) <+: (r ++ Y) ↔ b = r ∧ X <+: Y) := by
  induction b with
  | nil =>
    intro r X Y hb hr hX hY
    constructor
    · intro h
      cases r with
      | nil => exact ⟨rfl, by simpa using h⟩
      | cons d r2 =>
        exfalso
        cases X with
        | nil => simp at hX
        | cons x X2 =>
          have hx : x = '/' := by simpa using hX
          rw [List.nil_append, List.cons_append] at h
          have hxd := (List.cons_prefix_cons.mp h).1
          apply hr
          rw [← hxd, hx]
          exact List.mem_cons_self _ _
    · rintro ⟨hbr, hXY⟩
      subst hbr
      simpa using hXY
  | cons c b2 ih =>
    intro r X Y hb hr hX hY
    cases r with
    | nil =>
      constructor
      · intro h
        exfalso
        rw [List.nil_append] at h
        rcases hY with hY | hY
        · subst hY
          have := List.prefix_nil.mp h
          simp at this
        · cases Y with
          | nil => simp at hY
          | cons y Y2 =>
            have hy : y = '/' := by simpa using hY
            rw [List.cons_append] at h
            have hcy := (List.cons_prefix_cons.mp h).1
            apply hb
            rw [hcy, hy]
            exact List.mem_cons_self _ _
      · rintro ⟨hbr, _⟩
        exact List.noConfusion hbr
    | cons d r2 =>
      rw [List.cons_append, List.cons_append, List.cons_prefix_cons]
      rw [ih r2 X Y (fun hm => hb (List.mem_cons_of_mem _ hm))
        (fun hm => hr (List.mem_cons_of_mem _ hm)) hX hY]
      constructor
      · rintro ⟨h1, h2, h3⟩
        subst h1
        subst h2
        exact ⟨rfl, h3⟩
      · rintro ⟨h1, h2⟩
        cases h1
        exact ⟨rfl, rfl, h2⟩

theorem pathL_prefix_iff (bin : List (List Char)) : ∀ (res : List (List Char)),
    (∀ s ∈ bin, '/' ∉ s) → (∀ s ∈ res, '/' ∉ s) →
    ((pathL bin ++ ['/']) <+: pathL res ↔ bin <+: res ∧ bin ≠ res) := by
  induction bin with
  | nil =>
    intro res hbin hres
    cases res with
    | nil =>
      constructor
      · intro h
        exfalso
        have := List.prefix_nil.mp h
        simp [pathL] at this
      · rintro ⟨_, hne⟩
        exact absurd rfl hne
    | cons r rs =>
      constructor
      · intro _
        exact ⟨List.nil_prefix, List.noConfusion⟩
      · intro _
        show ([] ++ ['/']) <+: pathL (r :: rs)
        rw [List.nil_append]
        show ['/'] <+: ('/' :: (r ++ pathL rs))
        rw [List.cons_prefix_cons]
        exact ⟨rfl, List.nil_prefix⟩
  | cons b bs ih =>
    intro res hbin hres
    cases res with
    | nil =>
      constructor
      · intro h
        exfalso
        have := List.prefix_nil.mp h
        simp [pathL] at this
      · rintro ⟨h1, _⟩
        have := List.prefix_nil.mp h1
        exact List.noConfusion this
    | cons r rs =>
      have hstep : (pathL (b :: bs) ++ ['/']) <+: pathL (r :: rs) ↔
          ((b ++ (pathL bs ++ ['/'])) <+: (r ++ pathL rs)) := by
        show (('/' :: (b ++ pathL bs)) ++ ['/']) <+: ('/' :: (r ++ pathL rs)) ↔ _
        rw [List.cons_append, List.cons_prefix_cons, List.append_assoc]
        simp
      rw [hstep]
      have hX : (pathL bs ++ ['/']).head? = some '/' := by
        cases bs with
        | nil => rfl
        | cons s ss => rfl
      have hY : pathL rs = [] ∨ (pathL rs).head? = some '/' := by
        cases rs with
        | nil => exact Or.inl rfl
        | cons s ss => exact Or.inr rfl
      rw [seg_append_pfx_iff b r (pathL bs ++ ['/']) (pathL rs)
        (hbin b (List.mem_cons_self b bs)) (hres r (List.mem_cons_self r rs)) hX hY]
      rw [ih rs (fun s hs => hbin s (List.mem_cons_of_mem _ hs))
        (fun s hs => hres s (List.mem_cons_of_mem _ hs))]
      constructor
      · rintro ⟨h1, h2, h3⟩
        subst h1
        refine ⟨List.cons_prefix_cons.mpr ⟨rfl, h2⟩, ?_⟩
        intro hcon
        injection hcon with _ h5
        exact h3 h5
      · rintro ⟨h1, h2⟩
        rcases List.cons_prefix_cons.mp h1 with ⟨h3, h4⟩
        subst h3
        refine ⟨rfl, h4, ?_⟩
        intro hcon
        exact h2 (by rw [hcon])

theorem run_command_guard_iff (binDir : List (List Char))
    (hbin : ∀ s ∈ binDir, '/' ∉ s) (name : List Char) :
    ((pathL binDir ++ ['/']).isPrefixOf (pathL (resolvePath binDir name)) = true ↔
      binDir <+: resolvePath binDir name ∧ binDir ≠ resolvePath binDir name) := by
  rw [List.isPrefixOf_iff_prefix]
  exact pathL_prefix_iff binDir (resolvePath binDir name) hbin
    (resolvePath_no_slash binDir name hbin)

/-! ## Claim theorem: sandboxed command confinement (C7) -/

/-- C7 — Sandboxed command confinement and totality: (i) the source's
string-prefix guard holds exactly when the resolved script path lies
strictly inside the allow-listed bin directory (a proper segment
extension — so `..` traversal out of it is rejected); (ii) the result of
`executeRunCommand` depends on the runner only through its behavior at
the fixed options on strictly-inside paths — no other execution can
influence the outcome, i.e. nothing outside the directory is executed;
(iii) when the guard fails a textual error is returned; (iv) the options
passed to every execution are the fixed 30-second timeout and 1 MiB
buffer; (v) a failing execution produces the structured
`Command failed:` description rather than propagating; (vi) oversized
output is truncated at the 20000-character cap.  The function is total by
construction — it always returns a string. -/
theorem run_command_confinement (binDir : List (List Char))
    (hbin : ∀ s ∈ binDir, '/' ∉ s) :
    (∀ name : List Char,
      (pathL binDir ++ ['/']).isPrefixOf (pathL (resolvePath binDir name)) = true ↔
        binDir <+: resolvePath binDir name ∧ binDir ≠ resolvePath binDir name) ∧
    (∀ (fs : List (List Char) → Bool)
      (r1 r2 : ExecOpts → List (List Char) → List (List Char) → ExecOutcome)
      (cmd : String),
      (∀ p a, binDir <+: p → binDir ≠ p → r1 runCmdOpts p a = r2 runCmdOpts p a) →
      executeRunCommand binDir fs r1 cmd = executeRunCommand binDir fs r2 cmd) ∧
    (∀ (fs : List (List Char) → Bool)
      (runner : ExecOpts → List (List Char) → List (List Char) → ExecOutcome)
      (cmd : String),
      (wordsL (trimL cmd.data)).headD [] ≠ [] →
      (pathL binDir ++ ['/']).isPrefixOf
        (pathL (resolvePath binDir ((wordsL (trimL cmd.data)).headD []))) = false →
      executeRunCommand binDir fs runner cmd =
        "Error: Path traversal not allowed. Scripts must reside in workspace/bin/.") ∧
    (runCmdOpts.timeoutMs = 30000 ∧ runCmdOpts.maxBuffer = 1024 * 1024) ∧
    (∀ (fs : List (List Char) → Bool)
      (runner : ExecOpts → List (List Char) → List (List Char) → ExecOutcome)
      (cmd : String) (stdout stderr message : String),
      (wordsL (trimL cmd.data)).headD [] ≠ [] →
      (pathL binDir ++ ['/']).isPrefixOf
        (pathL (resolvePath binDir ((wordsL (trimL cmd.data)).headD []))) = true →
      fs (resolvePath binDir ((wordsL (trimL cmd.data)).headD [])) = true →
      runner runCmdOpts (resolvePath binDir ((wordsL (trimL cmd.data)).headD []))
          (wordsL (trimL cmd.data)).tail = .failure stdout stderr message →
      executeRunCommand binDir fs runner cmd =
        "Command failed:\n"
          ++ firstNonEmpty (strTrim stderr) (firstNonEmpty (strTrim stdout) message)) ∧
    (∀ (fs : List (List Char) → Bool)
      (runner : ExecOpts → List (List Char) → List (List Char) → ExecOutcome)
      (cmd : String) (out : String),
      (wordsL (trimL cmd.data)).headD [] ≠ [] →
      (pathL binDir ++ ['/']).isPrefixOf
        (pathL (resolvePath binDir ((wordsL (trimL cmd.data)).headD []))) = true →
      fs (resolvePath binDir ((wordsL (trimL cmd.data)).headD [])) = true →
      runner runCmdOpts (resolvePath binDir ((wordsL (trimL cmd.data)).headD []))
          (wordsL (trimL cmd.data)).tail = .success out →
      (strTrim out).data.length > 20000 →
      executeRunCommand binDir fs runner cmd =
        strTake 20000 (strTrim out) ++ "\n\n[truncated — output is "
          ++ toString (strTrim out).data.length ++ " chars]") := by
  refine ⟨run_command_guard_iff binDir hbin, ?_, ?_, ⟨rfl, rfl⟩, ?_, ?_⟩
  · intro fs r1 r2 cmd hagree
    unfold executeRunCommand
    by_cases h0 : (wordsL (trimL cmd.data)).headD [] = []
    · rw [if_pos h0, if_pos h0]
    · rw [if_neg h0, if_neg h0]
      by_cases hg : (pathL binDir ++ ['/']).isPrefixOf
          (pathL (resolvePath binDir ((wordsL (trimL cmd.data)).headD []))) = true
      · rw [if_neg (not_not_intro hg), if_neg (not_not_intro hg)]
        by_cases hfs : fs (resolvePath binDir ((wordsL (trimL cmd.data)).headD [])) = true
        · rw [if_neg (not_not_intro hfs), if_neg (not_not_intro hfs)]
          rcases (run_command_guard_iff binDir hbin
            ((wordsL (trimL cmd.data)).headD [])).mp hg with ⟨hin1, hin2⟩
          unfold runAndFormat
          rw [hagree _ _ hin1 hin2]
        · rw [if_pos hfs, if_pos hfs]
      · rw [if_pos hg, if_pos hg]
  · intro fs runner cmd h0 hg
    unfold executeRunCommand
    rw [if_neg h0]
    rw [if_pos (by rw [hg]; exact fun hc => Bool.noConfusion hc)]
  · intro fs runner cmd stdout stderr message h0 hg hfs hrun
    unfold executeRunCommand
    rw [if_neg h0]
    rw [if_neg (not_not_intro hg)]
    rw [if_neg (not_not_intro hfs)]
    unfold runAndFormat
    rw [hrun]
  · intro fs runner cmd out h0 hg hfs hrun hlong
    unfold executeRunCommand
    rw [if_neg h0]
    rw [if_neg (not_not_intro hg)]
    rw [if_neg (not_not_intro hfs)]
    unfold runAndFormat
    rw [hrun]
    show formatRunOutput (strTrim out) = _
    unfold formatRunOutput
    rw [if_pos hlong]

/-- Witness for C7 at a concrete bin directory: a traversal command is
rejected with the textual error, without consulting the runner. -/
theorem run_command_confinement_witness :
    executeRunCommand [['b'], ['i'], ['n']] (fun _ => true)
      (fun _ _ _ => ExecOutcome.success "hi") "../etc/passwd" =
      "Error: Path traversal not allowed. Scripts must reside in workspace/bin/." :=
  (run_command_confinement [['b'], ['i'], ['n']] (by decide)).2.2.1
    (fun _ => true) (fun _ _ _ => ExecOutcome.success "hi") "../etc/passwd"
    (by decide) (by decide)

end Retain
